import Mathlib

/-!
# A verification model of the uWebSockets HTTP parser (`src/HttpParser.h`)

This file gives a shallow embedding, in Lean 4, of the HTTP/1.x request
parser found in `src/HttpParser.h` of the repository, and proves properties
of it.  Buffers are modelled as lists of byte values (`List Nat`); the
in-place mutation performed by the C++ code (lower-casing of header keys,
fence bytes written past the end of the buffer) is modelled by making the
lower-cased keys part of the parse result and by appending the two fence
bytes `[13, 97]` (`'\r'`, `'a'`) explicitly.

Parts of the repository that `HttpParser.h` includes but that are not part
of the given sources (`BloomFilter.h`, `ChunkedEncoding.h`) are modelled
from the specification; their definitions carry a doc comment starting
with `Modelled from the spec:`.
-/

set_option autoImplicit false

namespace UWS

/-- Byte strings are lists of byte values. -/
abbrev Bytes := List Nat

/-- Bytes of an ASCII string literal, for concrete instances. -/
def strBytes (s : String) : Bytes := s.data.map Char.toNat

/-- One `(key, value)` header slot, as in `HttpRequest::Header`
(`std::string_view key, value`). -/
structure Header where
  key : Bytes
  value : Bytes
deriving DecidableEq, Repr

/-- The key scan of `getHeaders`:
`for (preliminaryKey = postPaddedBuffer; (*postPaddedBuffer != ':') &&
(*(unsigned char *)postPaddedBuffer > 32); *(postPaddedBuffer++) |= 32);`.
Consumes bytes that are neither `':'` (58) nor ≤ 32, lower-casing each
consumed byte via `|= 0x20`; returns the (lower-cased) key and the rest. -/
def scanKey : Bytes → Bytes × Bytes
  | [] => ([], [])
  | b :: rest =>
    if b ≠ 58 ∧ 32 < b then
      let p := scanKey rest
      ((b ||| 32) :: p.1, p.2)
    else ([], b :: rest)

/-- The value-trim loop of `getHeaders`:
`for (; (*postPaddedBuffer == ':' || *(unsigned char *)postPaddedBuffer < 33)
&& *postPaddedBuffer != '\r'; postPaddedBuffer++);`. -/
def trimToValue : Bytes → Bytes
  | [] => []
  | b :: rest =>
    if (b = 58 ∨ b < 33) ∧ b ≠ 13 then trimToValue rest else b :: rest

/-- After the key scan, `getHeaders` skips a literal `": "` if present and
otherwise runs the trim loop
(`if (postPaddedBuffer[0] == ':' && postPaddedBuffer[1] == ' ') ... else ...`). -/
def skipToValue (l : Bytes) : Bytes :=
  match l with
  | 58 :: 32 :: rest => rest
  | _ => trimToValue l

/-- The `find_cr` scan: advance to the first `'\r'` (13).  Returns the
consumed prefix (the header value) and the rest, which starts with the
first 13 if one exists. -/
def scanToCR : Bytes → Bytes × Bytes
  | [] => ([], [])
  | b :: rest =>
    if b = 13 then ([], b :: rest)
    else
      let p := scanToCR rest
      (b :: p.1, p.2)

/-- One header (or request) line of `getHeaders`: key scan, separator skip,
value scan to the next `'\r'`, then the check `postPaddedBuffer[1] == '\n'`.
Returns the stored header and the rest of the buffer after the CRLF, or
`none` when the byte after the found CR is not LF (malformed request or out
of search space, `return 0` in the source). -/
def parseHeaderLine (l : Bytes) : Option (Header × Bytes) :=
  match scanToCR (skipToValue (scanKey l).2) with
  | (v, 13 :: 10 :: rest) => some (⟨(scanKey l).1, v⟩, rest)
  | _ => none

/-- The header loop of `getHeaders`, iterating at most
`MAX_HEADERS - 1 = 49` times.  After each stored line the source checks for
the terminating CRLF: on `"\r\n"` it stores the sentinel and succeeds, on a
`'\r'` followed by anything else it fails, otherwise it parses the next
line.  Returns the stored headers and the unconsumed rest of the buffer. -/
def getHeadersLoop : Nat → Bytes → Option (List Header × Bytes)
  | 0, _ => none
  | fuel + 1, l =>
    match parseHeaderLine l with
    | none => none
    | some (h, rest) =>
      match rest with
      | 13 :: 10 :: rest2 => some ([h], rest2)
      | 13 :: _ => none
      | _ =>
        match getHeadersLoop fuel rest with
        | none => none
        | some (hs, r) => some (h :: hs, r)

/-- `MAX_HEADERS` of `HttpRequest`. -/
def MAX_HEADERS : Nat := 50

/-- `getHeaders(postPaddedBuffer, end, headers, reserved)` of the source,
over an already fenced buffer (the caller appends the fence bytes
`[13, 97]`, see `fenceAndConsumePostPadded`).  Returns the number of bytes
consumed through the terminating CRLFCRLF together with the parsed header
slots (`headers[0]` being the request line), or `none` for the source's
`return 0`. -/
def getHeaders (buf : Bytes) : Option (Nat × List Header) :=
  match getHeadersLoop (MAX_HEADERS - 1) buf with
  | none => none
  | some (hs, rest) => some (buf.length - rest.length, hs)

/-- Modelled from the spec: `BloomFilter.h` is not among the given sources.
Per §4.3 the bloom filter is "a small fixed-size bitset (e.g., 64 bits)
with a cheap hash over a byte slice"; false positives are tolerated, false
negatives must not occur.  This is the hash of the model. -/
def bfHash (k : Bytes) : Nat := (k.foldl (fun a b => a * 31 + b) 7) % 64

/-- Modelled from the spec: `BloomFilter::add`, setting the hash bit of the
64-bit bitset (the bitset is the `Nat`). -/
def bfAdd (bf : Nat) (k : Bytes) : Nat := bf ||| (2 ^ bfHash k)

/-- Modelled from the spec: `BloomFilter::mightHave`, testing the hash bit. -/
def bfMightHave (bf : Nat) (k : Bytes) : Bool := bf.testBit (bfHash k)

/-- The `HttpRequest` view handed to the request handler.  `headers` holds
the request line in position 0 (key = lower-cased method, value = request
target after the version suffix is stripped) followed by the parsed header
lines; the sentinel slot of the C++ array is implicit in the list end.
`currentParameters` models the externally assigned
`std::pair<int, std::string_view *>`: the array component is a total
function since the parser never checks what lies at or past the end of the
externally supplied array. -/
structure HttpRequest where
  headers : List Header
  ancientHttp : Bool
  querySeparator : Nat
  bf : Nat
  currentParameters : Int × (Nat → Bytes)
  didYield : Bool

/-- Default (uninitialised) parameters field of a freshly parsed request. -/
def defaultParameters : Int × (Nat → Bytes) := (0, fun _ => [])

/-- The linear header scan inside `HttpRequest::getHeader`:
`for (Header *h = headers; (++h)->key.length(); )` — starts at slot 1,
STOPS at the first zero-length key (the loop condition reads the slot's
key length, treating an empty key as the terminating sentinel), and
compares length-then-bytes, so it is exact key equality. -/
def findHeader : List Header → Bytes → Bytes
  | [], _ => []
  | h :: rest, k =>
    if h.key = [] then []
    else if h.key = k then h.value else findHeader rest k

/-- `HttpRequest::getHeader(lowerCasedHeader)`: bloom-filter guarded linear
scan over the header slots after the request line. -/
def HttpRequest.getHeader (req : HttpRequest) (lowerCasedHeader : Bytes) : Bytes :=
  if bfMightHave req.bf lowerCasedHeader then findHeader req.headers.tail lowerCasedHeader
  else []

/-- `HttpRequest::getUrl`: the first `querySeparator` bytes of the request
target. -/
def HttpRequest.getUrl (req : HttpRequest) : Bytes :=
  ((req.headers.headD ⟨[], []⟩).value).take req.querySeparator

/-- `HttpRequest::getMethod`: the key slot of the request line. -/
def HttpRequest.getMethod (req : HttpRequest) : Bytes :=
  (req.headers.headD ⟨[], []⟩).key

/-- `HttpRequest::getQuery()`: the raw query string after the `'?'`, or
empty when `querySeparator` is not below the target length. -/
def HttpRequest.getQuery (req : HttpRequest) : Bytes :=
  let v := (req.headers.headD ⟨[], []⟩).value
  if req.querySeparator < v.length then v.drop (req.querySeparator + 1) else []

/-- `HttpRequest::getParameter(index)`: `if (currentParameters.first <
(int) index) return {}; else return currentParameters.second[index];`. -/
def HttpRequest.getParameter (req : HttpRequest) (index : Nat) : Bytes :=
  if req.currentParameters.1 < (index : Int) then [] else req.currentParameters.2 index

/-- `HttpRequest.isAncient`. -/
def HttpRequest.isAncient (req : HttpRequest) : Bool := req.ancientHttp

/-- The first index of `'?'` (63) in a byte string, or its length when
absent — the `memchr` computation of `querySeparator` in
`fenceAndConsumePostPadded`. -/
def queryIdx : Bytes → Nat
  | [] => 0
  | b :: rest => if b = 63 then 0 else queryIdx rest + 1

/-- The per-head request-view construction performed by
`fenceAndConsumePostPadded` after `getHeaders` succeeds (lines 267–281):
`ancientHttp` from the last byte of the unstripped first value, the
9-byte `" HTTP/1.x"` suffix strip, the bloom filter fold over the header
keys — the fold's loop `for (Header *h = headers; (++h)->key.length(); )`
starts at slot 1 and stops at the first zero-length key, treating it as
the terminating sentinel — and the query separator. -/
def mkRequest (hs : List Header) : HttpRequest :=
  let h0 := hs.headD ⟨[], []⟩
  let ancient := !h0.value.isEmpty && h0.value.getLastD 0 == 48
  let v := h0.value.take (h0.value.length - 9)
  { headers := ⟨h0.key, v⟩ :: hs.tail
    ancientHttp := ancient
    querySeparator := queryIdx v
    bf := (hs.tail.takeWhile (fun h => !h.key.isEmpty)).foldl
      (fun b h => bfAdd b h.key) 0
    currentParameters := defaultParameters
    didYield := false }

/-- `HttpParser::toUnsignedInteger`: base-10 accumulation of `c - '0'` in
32-bit unsigned arithmetic over every byte of the value, with no digit
validation.  (`char` promotion is modelled for byte values 0–255 as the
unsigned reading used on platforms with unsigned `char`.) -/
def toUnsignedInteger (str : Bytes) : Nat :=
  str.foldl (fun v c => (v * 10 + (c + 2 ^ 32 - 48) % 2 ^ 32) % 2 ^ 32) 0

/-- `MAX_FALLBACK_SIZE = 1024 * 4`. -/
def MAX_FALLBACK_SIZE : Nat := 4096

/-- Modelled from the spec: `ChunkedEncoding.h` is not among the given
sources.  Per §3 the two highest bits of the 32-bit state distinguish the
framing mode; this is the chunked-mode bit the parser assigns
(`remainingStreamingBytes = STATE_IS_CHUNKED`). -/
def STATE_IS_CHUNKED : Nat := 2 ^ 31

/-- Modelled from the spec: `isParsingChunkedEncoding` tests the
chunked-mode bit of the state. -/
def isParsingChunkedEncoding (s : Nat) : Bool := s.testBit 31

/-- Hex digit value, or `none`: used by the modelled chunked decoder's
size-line scan. -/
def hexDigit (b : Nat) : Option Nat :=
  if 48 ≤ b ∧ b ≤ 57 then some (b - 48)
  else if 97 ≤ b ∧ b ≤ 102 then some (b - 87)
  else if 65 ≤ b ∧ b ≤ 70 then some (b - 55)
  else none

/-- Encoding of the modelled chunked sub-states in the low 30 bits of the
state: payload `8 * v + t` with tag `t` and counter `v`.
Tags: 0 = reading a chunk-size line (accumulated size `v`), 1 = saw the CR
of the size line, 2 = inside a chunk with `v` payload bytes left,
3 = expecting the CRLF after a chunk (`v ∈ {2,1}` bytes left of it),
4 = expecting the terminal CRLF after the zero-size line. -/
def chunkState (t v : Nat) : Nat := STATE_IS_CHUNKED + 8 * (v % 2 ^ 27) + t

/-- Modelled from the spec (§4.6, §7): the resumable chunked decoder driven
by `uWS::ChunkIterator`.  Consumes bytes from the window, yielding decoded
chunk payloads; a zero-size line terminates the body and yields an empty
chunk, after which the state returns to 0.  Malformed input (a non-hex byte
in a size line, a missing LF or CRLF) terminates the body with a final
empty emission and state 0, leaving the offending bytes in the window.
The fuel argument is always called with `window.length + 1`, which is
enough since every recursive call consumes at least one byte. -/
def chunkedConsume : Nat → Nat → Bytes → List Bytes × Nat × Bytes
  | 0, s, w => ([], s, w)
  | fuel + 1, s, w =>
    if s.testBit 31 = false then ([], s, w)
    else
      let p := s - STATE_IS_CHUNKED
      let t := p % 8
      let v := p / 8
      match w with
      | [] => ([], s, w)
      | b :: w1 =>
        if t = 0 then
          match hexDigit b with
          | some d =>
            if 16 * v + d < 2 ^ 27 then
              chunkedConsume fuel (chunkState 0 (16 * v + d)) w1
            else ([[]], 0, w)
          | none =>
            if b = 13 then chunkedConsume fuel (chunkState 1 v) w1
            else ([[]], 0, w)
        else if t = 1 then
          if b = 10 then
            if v = 0 then chunkedConsume fuel (chunkState 4 2) w1
            else chunkedConsume fuel (chunkState 2 v) w1
          else ([[]], 0, w)
        else if t = 2 then
          if v = 0 then ([[]], 0, w)
          else if v ≤ w.length then
            let r := chunkedConsume fuel (chunkState 3 2) (w.drop v)
            (w.take v :: r.1, r.2.1, r.2.2)
          else ([w], chunkState 2 (v - w.length), [])
        else if t = 3 then
          if v = 2 ∧ b = 13 then chunkedConsume fuel (chunkState 3 1) w1
          else if v = 1 ∧ b = 10 then chunkedConsume fuel (chunkState 0 0) w1
          else ([[]], 0, w)
        else if t = 4 then
          if v = 2 ∧ b = 13 then chunkedConsume fuel (chunkState 4 1) w1
          else if v = 1 ∧ b = 10 then ([[]], 0, w1)
          else ([[]], 0, w)
        else ([[]], 0, w)

/-- The chunked decoder run over a whole window, with sufficient fuel. -/
def chunkedConsumeTop (s : Nat) (w : Bytes) : List Bytes × Nat × Bytes :=
  chunkedConsume (w.length + 1) s w

/-- One observable callback invocation of a `consumePostPadded` call:
a request-handler call (with the request view it received), a data-handler
call (with the emitted slice and fin flag), or an error-handler call. -/
inductive Event where
  | request : HttpRequest → Event
  | data : Bytes → Bool → Event
  | error : Event

/-- The shape of an event, without its payload. -/
inductive EventKind where
  | request
  | data
  | error
deriving DecidableEq, Repr

/-- Forget event payloads. -/
def eventKind : Event → EventKind
  | .request _ => .request
  | .data _ _ => .data
  | .error => .error

/-- The body dispatch performed by `fenceAndConsumePostPadded` for one
parsed head (source lines 293–326): non-`"get"` methods with a
Content-Length header enter length mode (streaming up to the window unless
consuming minimally); non-`"get"` methods without one are assumed chunked;
`"get"` requests emit a single empty data chunk with fin set.  Returns the
data events emitted, the new `remainingStreamingBytes`, the rest of the
window, and the number of window bytes consumed. -/
def dispatchBody (minimal : Bool) (rem : Nat) (req : HttpRequest) (w : Bytes) :
    List Event × Nat × Bytes × Nat :=
  if req.getMethod ≠ strBytes "get" then
    let cl := req.getHeader (strBytes "content-length")
    if cl ≠ [] then
      let rem1 := toUnsignedInteger cl
      if minimal then ([], rem1, w, 0)
      else
        let emittable := min rem1 w.length
        ([Event.data (w.take emittable) (emittable == rem1)],
          rem1 - emittable, w.drop emittable, emittable)
    else
      if minimal then ([], STATE_IS_CHUNKED, w, 0)
      else
        let r := chunkedConsumeTop STATE_IS_CHUNKED w
        (r.1.map (fun c => Event.data c c.isEmpty), r.2.1, r.2.2, w.length - r.2.2.length)
  else
    ([Event.data [] true], rem, w, 0)

/-- The head loop of `fenceAndConsumePostPadded` (template parameter
`CONSUME_MINIMALLY` as the `minimal` flag).  Per iteration: fence the
window, run `getHeaders`, build the request view, invoke the request
handler — returning at once with its token if it differs from `user` —
then dispatch the body and (unless minimal) continue on the rest.
Returns `(consumedTotal, events, returned token, remainingStreamingBytes)`.
The fuel is always called with `window.length + 1`, which is enough since
every successful head parse consumes at least one byte. -/
def fenceLoop {α : Type} [DecidableEq α] (minimal : Bool)
    (requestHandler : α → HttpRequest → α) (user : α) :
    Nat → Nat → Bytes → Nat × List Event × α × Nat
  | 0, rem, _ => (0, [], user, rem)
  | fuel + 1, rem, w =>
    if w.length = 0 then (0, [], user, rem)
    else
      match getHeaders (w ++ [13, 97]) with
      | none => (0, [], user, rem)
      | some (n, hs) =>
        let req := mkRequest hs
        let w1 := w.drop n
        let ret := requestHandler user req
        if ret ≠ user then (n, [Event.request req], ret, rem)
        else
          let d := dispatchBody minimal rem req w1
          if minimal then
            (n + d.2.2.2, Event.request req :: d.1, user, d.2.1)
          else
            let r := fenceLoop minimal requestHandler user fuel d.2.1 d.2.2.1
            (n + d.2.2.2 + r.1, Event.request req :: d.1 ++ r.2.1, r.2.2.1, r.2.2.2)

/-- `fenceAndConsumePostPadded<CONSUME_MINIMALLY>` over a window, with
sufficient fuel. -/
def fenceAndConsumePostPadded {α : Type} [DecidableEq α] (minimal : Bool)
    (requestHandler : α → HttpRequest → α) (user : α) (rem : Nat) (w : Bytes) :
    Nat × List Event × α × Nat :=
  fenceLoop minimal requestHandler user (w.length + 1) rem w

/-- The per-connection mutable state of `HttpParser`: the fallback buffer
and `remainingStreamingBytes`. -/
structure ParserState where
  fallback : Bytes
  remaining : Nat
deriving DecidableEq, Repr

/-- Steps 3 and 4 of `consumePostPadded` (source lines 427–444): parse
fresh heads over the current window, then stash any remainder shorter than
`MAX_FALLBACK_SIZE` in the fallback buffer, or invoke the error handler.
`evs` are events already emitted earlier in the call and `fb` the current
fallback contents. -/
def consumeFreshAndStash {α : Type} [DecidableEq α]
    (requestHandler : α → HttpRequest → α) (errorHandler : α → α) (user : α)
    (evs : List Event) (fb : Bytes) (rem : Nat) (w : Bytes) :
    List Event × α × ParserState :=
  let r := fenceAndConsumePostPadded false requestHandler user rem w
  if r.2.2.1 ≠ user then (evs ++ r.2.1, r.2.2.1, ⟨fb, r.2.2.2⟩)
  else
    let leftover := w.drop r.1
    if leftover.length ≠ 0 then
      if leftover.length < MAX_FALLBACK_SIZE then
        (evs ++ r.2.1, user, ⟨fb ++ leftover, r.2.2.2⟩)
      else (evs ++ r.2.1 ++ [Event.error], errorHandler user, ⟨fb, r.2.2.2⟩)
    else (evs ++ r.2.1, user, ⟨fb, r.2.2.2⟩)

/-- `HttpParser::consumePostPadded(data, length, user, reserved,
requestHandler, dataHandler, errorHandler)`.  Returns the events emitted in
order, the returned user token, and the parser state after the call.
Stage 1 resumes a body in progress (chunked if the chunked bit is set,
otherwise length mode); stage 2 drains the fallback buffer with a minimal
fence pass (note: as in this source, the body begun by a head completed
out of the fallback buffer is streamed in length mode regardless of the
chunked bit); stages 3–4 are `consumeFreshAndStash`. -/
def consumePostPadded {α : Type} [DecidableEq α]
    (requestHandler : α → HttpRequest → α) (dataHandler : α → Bytes → Bool → α)
    (errorHandler : α → α) (user : α) (st : ParserState) (data : Bytes) :
    List Event × α × ParserState :=
  if st.remaining ≠ 0 then
    if isParsingChunkedEncoding st.remaining then
      let r := chunkedConsumeTop st.remaining data
      consumeFreshAndStash requestHandler errorHandler user
        (r.1.map (fun c => Event.data c c.isEmpty)) st.fallback r.2.1 r.2.2
    else
      if data.length ≤ st.remaining then
        let fin := st.remaining == data.length
        ([Event.data data fin], dataHandler user data fin,
          ⟨st.fallback, st.remaining - data.length⟩)
      else
        let ret := dataHandler user (data.take st.remaining) true
        if ret ≠ user then
          ([Event.data (data.take st.remaining) true], ret, ⟨st.fallback, 0⟩)
        else
          consumeFreshAndStash requestHandler errorHandler user
            [Event.data (data.take st.remaining) true] st.fallback 0
            (data.drop st.remaining)
  else if st.fallback.length ≠ 0 then
    let had := st.fallback.length
    let maxCopy := min (MAX_FALLBACK_SIZE - had) data.length
    let fb := st.fallback ++ data.take maxCopy
    let r := fenceAndConsumePostPadded true requestHandler user 0 fb
    if r.2.2.1 ≠ user then (r.2.1, r.2.2.1, ⟨fb, r.2.2.2⟩)
    else if r.1 ≠ 0 then
      let data2 := data.drop (r.1 - had)
      if r.2.2.2 ≠ 0 then
        if data2.length ≤ r.2.2.2 then
          let fin := r.2.2.2 == data2.length
          (r.2.1 ++ [Event.data data2 fin], dataHandler user data2 fin,
            ⟨[], r.2.2.2 - data2.length⟩)
        else
          let ret := dataHandler user (data2.take r.2.2.2) true
          if ret ≠ user then
            (r.2.1 ++ [Event.data (data2.take r.2.2.2) true], ret, ⟨[], 0⟩)
          else
            consumeFreshAndStash requestHandler errorHandler user
              (r.2.1 ++ [Event.data (data2.take r.2.2.2) true]) [] 0
              (data2.drop r.2.2.2)
      else consumeFreshAndStash requestHandler errorHandler user r.2.1 [] 0 data2
    else
      if fb.length == MAX_FALLBACK_SIZE then
        (r.2.1 ++ [Event.error], errorHandler user, ⟨fb, r.2.2.2⟩)
      else (r.2.1, user, ⟨fb, r.2.2.2⟩)
  else consumeFreshAndStash requestHandler errorHandler user [] st.fallback 0 data

/-! ## Structural lemmas about the scanners -/

/-- `scanKey` splits its input: the consumed raw bytes satisfy the scan
condition, the produced key is their lower-casing, and nothing else moves. -/
theorem scanKey_decomp (l : Bytes) :
    ∃ pre, l = pre ++ (scanKey l).2 ∧ (scanKey l).1 = pre.map (· ||| 32) ∧
      ∀ b ∈ pre, b ≠ 58 ∧ 32 < b := by
  induction l with
  | nil => exact ⟨[], by simp [scanKey]⟩
  | cons b rest ih =>
    by_cases hb : b ≠ 58 ∧ 32 < b
    · obtain ⟨pre, h1, h2, h3⟩ := ih
      refine ⟨b :: pre, ?_, ?_, ?_⟩
      · simpa [scanKey, hb] using h1
      · simp [scanKey, hb, h2]
      · intro x hx
        rcases List.mem_cons.mp hx with hx | hx
        · exact hx ▸ hb
        · exact h3 x hx
    · exact ⟨[], by simp [scanKey, hb]⟩

/-- `scanKey` over a well-formed token followed by a stop byte. -/
theorem scanKey_append (m : Bytes) (b : Nat) (r : Bytes)
    (hm : ∀ x ∈ m, x ≠ 58 ∧ 32 < x) (hb : b = 58 ∨ b ≤ 32) :
    scanKey (m ++ b :: r) = (m.map (· ||| 32), b :: r) := by
  induction m with
  | nil =>
    have : ¬(b ≠ 58 ∧ 32 < b) := by
      rcases hb with hb | hb
      · simp [hb]
      · intro h; omega
    simp [scanKey, this]
  | cons x m ih =>
    have hx := hm x (by simp)
    have hrest : ∀ y ∈ m, y ≠ 58 ∧ 32 < y := fun y hy => hm y (by simp [hy])
    simp [scanKey, hx.1, hx.2, ih hrest]

/-- `trimToValue` splits its input, consuming only separator bytes that are
not CR. -/
theorem trimToValue_decomp (l : Bytes) :
    ∃ pre, l = pre ++ trimToValue l ∧ ∀ b ∈ pre, (b = 58 ∨ b < 33) ∧ b ≠ 13 := by
  induction l with
  | nil => exact ⟨[], by simp [trimToValue]⟩
  | cons b rest ih =>
    by_cases hb : (b = 58 ∨ b < 33) ∧ b ≠ 13
    · obtain ⟨pre, h1, h2⟩ := ih
      refine ⟨b :: pre, by simpa [trimToValue, hb] using h1, ?_⟩
      intro x hx
      rcases List.mem_cons.mp hx with hx | hx
      · exact hx ▸ hb
      · exact h2 x hx
    · exact ⟨[], by simp [trimToValue, hb]⟩

/-- `skipToValue` splits its input and never consumes a CR. -/
theorem skipToValue_decomp (l : Bytes) :
    ∃ pre, l = pre ++ skipToValue l ∧ 13 ∉ pre := by
  have htrim : ∃ pre, l = pre ++ trimToValue l ∧ 13 ∉ pre := by
    obtain ⟨pre, h1, h2⟩ := trimToValue_decomp l
    exact ⟨pre, h1, fun hm => (h2 13 hm).2 rfl⟩
  unfold skipToValue
  split
  · exact ⟨[58, 32], rfl, by decide⟩
  · exact htrim

/-- `scanToCR` splits its input: the consumed value holds no CR and the
rest, if nonempty, starts with one. -/
theorem scanToCR_decomp (l : Bytes) :
    l = (scanToCR l).1 ++ (scanToCR l).2 ∧ 13 ∉ (scanToCR l).1 := by
  induction l with
  | nil => simp [scanToCR]
  | cons b rest ih =>
    by_cases hb : b = 13
    · simp [scanToCR, hb]
    · simpa [scanToCR, hb] using ⟨ih.1, fun h => hb h.symm, ih.2⟩

/-- `scanToCR` over a CR-free prefix followed by a CR. -/
theorem scanToCR_append (s : Bytes) (r : Bytes) (hs : 13 ∉ s) :
    scanToCR (s ++ 13 :: r) = (s, 13 :: r) := by
  induction s with
  | nil => simp [scanToCR]
  | cons b s ih =>
    have hb : b ≠ 13 := fun h => hs (h ▸ List.mem_cons_self b s)
    have hrest : 13 ∉ s := fun h => hs (List.mem_cons_of_mem b h)
    simp [scanToCR, hb, ih hrest]

/-- Checks that every CR (13) in a byte string is immediately followed by
an LF (10), and that the string does not end in a CR. -/
def crFollowed : Bytes → Bool
  | [] => true
  | b :: rest =>
    if b = 13 then
      match rest with
      | 10 :: _ => crFollowed rest
      | _ => false
    else crFollowed rest

/-- The index of the first occurrence of the head terminator
`[13, 10, 13, 10]` (CRLFCRLF), or `none` when it does not occur. -/
def firstTerm : Bytes → Option Nat
  | [] => none
  | b :: rest =>
    if b = 13 ∧ rest.take 3 = [10, 13, 10] then some 0
    else (firstTerm rest).map (· + 1)

theorem crFollowed_cons_ne (b : Nat) (r : Bytes) (hb : b ≠ 13) :
    crFollowed (b :: r) = crFollowed r := by
  simp [crFollowed, hb]

theorem crFollowed_cr_lf (r : Bytes) : crFollowed (13 :: 10 :: r) = crFollowed (10 :: r) := rfl

theorem crFollowed_append_of_not_mem (a b : Bytes) (ha : 13 ∉ a) :
    crFollowed (a ++ b) = crFollowed b := by
  induction a with
  | nil => simp
  | cons x a ih =>
    have hx : x ≠ 13 := fun h => ha (h ▸ List.mem_cons_self x a)
    have ha' : 13 ∉ a := fun h => ha (List.mem_cons_of_mem x h)
    rw [List.cons_append, crFollowed_cons_ne x _ hx, ih ha']

theorem firstTerm_cons_ne (b : Nat) (r : Bytes) (hb : b ≠ 13) :
    firstTerm (b :: r) = (firstTerm r).map (· + 1) := by
  simp [firstTerm, hb]

theorem firstTerm_cons (b : Nat) (r : Bytes)
    (h : ¬(b = 13 ∧ r.take 3 = [10, 13, 10])) :
    firstTerm (b :: r) = (firstTerm r).map (· + 1) := by
  simp only [firstTerm, if_neg h]

theorem firstTerm_append_of_not_mem (a b : Bytes) (ha : 13 ∉ a) :
    firstTerm (a ++ b) = (firstTerm b).map (· + a.length) := by
  induction a with
  | nil => cases heq : firstTerm b <;> simp [heq]
  | cons x a ih =>
    have hx : x ≠ 13 := fun h => ha (h ▸ List.mem_cons_self x a)
    have ha' : 13 ∉ a := fun h => ha (List.mem_cons_of_mem x h)
    rw [List.cons_append, firstTerm_cons_ne x _ hx, ih ha']
    cases heq : firstTerm b with
    | none => simp
    | some v => simp; omega

theorem firstTerm_term (r : Bytes) : firstTerm (13 :: 10 :: 13 :: 10 :: r) = some 0 := by
  simp [firstTerm]

theorem firstTerm_cr_lf (z : Bytes) (hz : z.head? ≠ some 13) :
    firstTerm (13 :: 10 :: z) = (firstTerm z).map (· + 2) := by
  have h10 : firstTerm (10 :: z) = (firstTerm z).map (· + 1) :=
    firstTerm_cons_ne 10 z (by decide)
  have hcond : ¬(13 = 13 ∧ (10 :: z).take 3 = [10, 13, 10]) := by
    rintro ⟨-, htk⟩
    rcases z with _ | ⟨c, z⟩
    · simp at htk
    · simp at htk
      simp [htk.1] at hz
  rw [firstTerm_cons 13 (10 :: z) hcond, h10]
  cases heq : firstTerm z with
  | none => simp
  | some v => simp

/-- Decomposition of one successful header-line parse: the line is a
CR-free prefix followed by CRLF, the stored value is the part after the
separator skip, and every stored key byte is fixed by lower-casing. -/
theorem parseHeaderLine_decomp (l : Bytes) (h : Header) (rest : Bytes)
    (hp : parseHeaderLine l = some (h, rest)) :
    ∃ pre, l = pre ++ 13 :: 10 :: rest ∧ 13 ∉ pre ∧
      ∀ b ∈ h.key, b ||| 32 = b := by
  unfold parseHeaderLine at hp
  split at hp
  · rename_i v rest' heq
    simp only [Option.some.injEq, Prod.mk.injEq] at hp
    obtain ⟨hh, hr⟩ := hp
    obtain ⟨kraw, hk1, hk2, hk3⟩ := scanKey_decomp l
    obtain ⟨spre, hs1, hs2⟩ := skipToValue_decomp (scanKey l).2
    have hv := scanToCR_decomp (skipToValue (scanKey l).2)
    rw [heq] at hv
    refine ⟨kraw ++ spre ++ v, ?_, ?_, ?_⟩
    · rw [List.append_assoc, List.append_assoc, hk1]
      congr 1
      rw [hs1]
      congr 1
      rw [← hr]
      exact hv.1
    · intro hm
      rcases List.mem_append.mp hm with hm | hm
      · rcases List.mem_append.mp hm with hm | hm
        · have := hk3 13 hm; omega
        · exact hs2 hm
      · exact hv.2 hm
    · rw [← hh, hk2]
      intro b hb
      obtain ⟨a, _, rfl⟩ := List.mem_map.mp hb
      rw [Nat.lor_assoc]
      norm_num
  · exact absurd hp (by simp)

theorem getHeadersLoop_nil (fuel : Nat) : getHeadersLoop fuel [] = none := by
  cases fuel with
  | zero => rfl
  | succ fuel =>
    have hpl : parseHeaderLine [] = none := by rfl
    unfold getHeadersLoop
    rw [hpl]

/-- Decomposition of a successful run of the header loop: the consumed
prefix ends with the CRLFCRLF terminator — and contains it only there,
whatever follows (`firstTerm` conjunct) — every CR in it is followed by
LF, its CR count is one more than the number of stored header slots, and
every stored key byte is fixed by lower-casing. -/
theorem getHeadersLoop_decomp :
    ∀ (fuel : Nat) (l : Bytes) (hs : List Header) (rest : Bytes),
      getHeadersLoop fuel l = some (hs, rest) →
      ∃ pre, l = pre ++ rest ∧ 4 ≤ pre.length ∧ [13, 10, 13, 10] <:+ pre ∧
        crFollowed pre = true ∧
        (∀ q, firstTerm (pre ++ q) = some (pre.length - 4)) ∧
        pre.count 13 = hs.length + 1 ∧ hs.length ≤ fuel ∧
        ∀ h ∈ hs, ∀ b ∈ h.key, b ||| 32 = b := by
  intro fuel
  induction fuel with
  | zero => intro l hs rest h; simp [getHeadersLoop] at h
  | succ fuel ih =>
    intro l hs rest hloop
    unfold getHeadersLoop at hloop
    cases hpl : parseHeaderLine l with
    | none => rw [hpl] at hloop; simp at hloop
    | some pr =>
      obtain ⟨h, rest1⟩ := pr
      rw [hpl] at hloop
      obtain ⟨pre1, hl1, hl2, hl3⟩ := parseHeaderLine_decomp l h rest1 hpl
      rcases rest1 with _ | ⟨b1, rest1t⟩
      · simp [getHeadersLoop_nil fuel] at hloop
      · by_cases hb1 : b1 = 13
        · subst hb1
          rcases rest1t with _ | ⟨b2, rest1tt⟩
          · simp at hloop
          · by_cases hb2 : b2 = 10
            · subst hb2
              simp only [Option.some.injEq, Prod.mk.injEq] at hloop
              obtain ⟨hhs, hrest⟩ := hloop
              subst hhs hrest
              refine ⟨pre1 ++ [13, 10, 13, 10], ?_, ?_, ?_, ?_, ?_, ?_, ?_, ?_⟩
              · rw [hl1]; simp
              · simp
              · exact List.suffix_append pre1 [13, 10, 13, 10]
              · rw [crFollowed_append_of_not_mem pre1 _ hl2]; decide
              · intro q
                rw [List.append_assoc, firstTerm_append_of_not_mem pre1 _ hl2]
                have : firstTerm ([13, 10, 13, 10] ++ q) = some 0 := firstTerm_term q
                rw [this]
                simp
              · rw [List.count_append, List.count_eq_zero.mpr hl2]
                simp [List.count_cons]
              · simp only [List.length_singleton]
                omega
              · intro h' hm
                rcases List.mem_singleton.mp hm with rfl
                exact hl3
            · simp [hb2] at hloop
        · split at hloop
          · rename_i heq
            simp at heq
          rename_i heq
          simp only [Option.some.injEq, Prod.mk.injEq] at heq
          obtain ⟨heq1, heq2⟩ := heq
          subst heq1
          subst heq2
          split at hloop
          · rename_i heq'
            simp at heq'
            exact absurd heq'.1 hb1
          · rename_i heq'
            simp at heq'
            exact absurd heq'.1 hb1
          cases hrec : getHeadersLoop fuel (b1 :: rest1t) with
          | none =>
            rw [hrec] at hloop
            simp at hloop
          | some pr2 =>
            obtain ⟨hs', rest'⟩ := pr2
            rw [hrec] at hloop
            simp only [Option.some.injEq, Prod.mk.injEq] at hloop
            obtain ⟨hhs, hrest⟩ := hloop
            subst hhs hrest
            obtain ⟨pre', hp1, hp2, hp3, hp4, hp5, hp6, hp7, hp8⟩ :=
              ih (b1 :: rest1t) hs' rest' hrec
            rcases pre' with _ | ⟨p0, pre''⟩
            · simp at hp2
            · have hb1p0 : b1 = p0 := by
                have := hp1
                simp only [List.cons_append, List.cons.injEq] at this
                exact this.1
              subst hb1p0
              refine ⟨pre1 ++ [13, 10] ++ (b1 :: pre''), ?_, ?_, ?_, ?_, ?_, ?_, ?_, ?_⟩
              · rw [hl1, hp1]; simp
              · simp at hp2 ⊢; omega
              · exact hp3.trans (List.suffix_append _ (b1 :: pre''))
              · rw [List.append_assoc, crFollowed_append_of_not_mem pre1 _ hl2]
                have : ([13, 10] : Bytes) ++ b1 :: pre'' = 13 :: 10 :: b1 :: pre'' := rfl
                rw [this, crFollowed_cr_lf, crFollowed_cons_ne 10 _ (by decide)]
                exact hp4
              · intro q
                rw [List.append_assoc, List.append_assoc, firstTerm_append_of_not_mem pre1 _ hl2]
                have hshape : ([13, 10] : Bytes) ++ (b1 :: pre'' ++ q) = 13 :: 10 :: (b1 :: pre'' ++ q) := rfl
                rw [hshape, firstTerm_cr_lf _ (by simpa using hb1), hp5 q]
                simp at hp2 ⊢
                omega
              · rw [List.append_assoc, List.count_append, List.count_eq_zero.mpr hl2]
                have hshape : ([13, 10] : Bytes) ++ b1 :: pre'' = 13 :: 10 :: b1 :: pre'' := rfl
                rw [hshape]
                have h13 : List.count 13 (13 :: 10 :: b1 :: pre'') = 1 + List.count 13 (b1 :: pre'') := by
                  rw [List.count_cons, List.count_cons]
                  simp
                  omega
                rw [h13, hp6]
                simp
                omega
              · simpa using Nat.succ_le_succ hp7
              · intro h' hm
                rcases List.mem_cons.mp hm with rfl | hm
                · exact hl3
                · exact hp8 h' hm

/-- Success properties of `getHeaders` over a fenced buffer `w ++ [13, 97]`:
the consumed count `n` satisfies `4 ≤ n ≤ w.length`, ends exactly 4 bytes
past the first CRLFCRLF of `w`, every CR in the consumed prefix is
immediately followed by LF, the consumed prefix holds one CR per stored
line, and at most 49 header slots are stored. -/
theorem getHeaders_spec (w : Bytes) (n : Nat) (hs : List Header)
    (h : getHeaders (w ++ [13, 97]) = some (n, hs)) :
    4 ≤ n ∧ n ≤ w.length ∧ firstTerm w = some (n - 4) ∧
      crFollowed (w.take n) = true ∧ (w.take n).count 13 = hs.length + 1 ∧
      hs.length ≤ 49 ∧ (∀ h' ∈ hs, ∀ b ∈ h'.key, b ||| 32 = b) ∧
      [13, 10, 13, 10] <:+ w.take n := by
  unfold getHeaders at h
  cases hloop : getHeadersLoop (MAX_HEADERS - 1) (w ++ [13, 97]) with
  | none => rw [hloop] at h; simp at h
  | some pr =>
    obtain ⟨hs0, rest⟩ := pr
    rw [hloop] at h
    simp only [Option.some.injEq, Prod.mk.injEq] at h
    obtain ⟨hn, hhs⟩ := h
    subst hhs
    obtain ⟨pre, hpre, hlen4, hsuf, hcr, hft, hcount, hfuel, hkeys⟩ :=
      getHeadersLoop_decomp (MAX_HEADERS - 1) (w ++ [13, 97]) hs0 rest hloop
    have hlensum : pre.length + rest.length = w.length + 2 := by
      have := congrArg List.length hpre
      simpa using this.symm
    have hneq : n = pre.length := by
      rw [← hn]; simp; omega
    subst hneq
    have hpretake : pre = (w ++ [13, 97]).take pre.length := by
      conv_rhs => rw [hpre]
      rw [List.take_left]
    have hlast : pre.getLast? = some 10 := by
      obtain ⟨t', ht'⟩ := hsuf
      rw [← ht']
      rw [List.getLast?_append]
      rfl
    have hnw : pre.length ≤ w.length := by
      by_contra hgt
      push_neg at hgt
      have hcase : pre.length = w.length + 1 ∨ pre.length = w.length + 2 := by omega
      rcases hcase with hc | hc
      · have : pre = w ++ [13] := by
          rw [hpretake, hc, List.take_append_eq_append_take]
          simp
        rw [this] at hlast
        rw [List.getLast?_append] at hlast
        simp at hlast
      · have : pre = w ++ [13, 97] := by
          rw [hpretake, hc, List.take_append_eq_append_take]
          simp
        rw [this] at hlast
        rw [List.getLast?_append] at hlast
        simp at hlast
    have hprew : pre = w.take pre.length := by
      conv_lhs => rw [hpretake]
      rw [List.take_append_of_le_length hnw]
    refine ⟨hlen4, hnw, ?_, ?_, ?_, ?_, hkeys, ?_⟩
    · have hw : w = pre ++ w.drop pre.length := by
        conv_lhs => rw [← List.take_append_drop pre.length w]
        rw [← hprew]
      calc firstTerm w = firstTerm (pre ++ w.drop pre.length) := by rw [← hw]
        _ = some (pre.length - 4) := hft _
    · rw [← hprew]; exact hcr
    · rw [← hprew]; exact hcount
    · exact hfuel
    · rw [← hprew]; exact hsuf

/-! ## Lemmas about the modelled chunked decoder and bloom filter -/

theorem chunkState_testBit (t v : Nat) (ht : t < 8) :
    (chunkState t v).testBit 31 = true := by
  have hv : v % 2 ^ 27 < 2 ^ 27 := Nat.mod_lt _ (by norm_num)
  rw [Nat.testBit_to_div_mod]
  unfold chunkState STATE_IS_CHUNKED
  have h1 : (2 ^ 31 + 8 * (v % 2 ^ 27) + t) / 2 ^ 31 = 1 := by omega
  rw [h1]
  rfl

/-- The modelled chunked decoder, run with enough fuel from any chunked
state, leaves a window that is a suffix of its input and, when that suffix
is nonempty, a state of 0 (body finished or error-terminated with a final
empty emission). -/
theorem chunkedConsume_spec :
    ∀ (fuel : Nat) (s : Nat) (w : Bytes), w.length < fuel → s.testBit 31 = true →
      (chunkedConsume fuel s w).2.2 <:+ w ∧
      ((chunkedConsume fuel s w).2.2 ≠ [] → (chunkedConsume fuel s w).2.1 = 0) := by
  intro fuel
  induction fuel with
  | zero => intro s w hf hb; omega
  | succ fuel ih =>
    intro s w hf hb
    unfold chunkedConsume
    rw [hb]
    simp only [Bool.true_eq_false, if_false]
    rcases w with _ | ⟨b, w1⟩
    · exact ⟨List.nil_suffix, fun hne => absurd rfl hne⟩
    · have hw1 : w1.length < fuel := by
        simp at hf; omega
    -- abbreviations for the sub-state
      set p := s - STATE_IS_CHUNKED with hp
      dsimp only
      by_cases ht0 : p % 8 = 0
      · rw [if_pos ht0]
        cases hhex : hexDigit b with
        | some d =>
          dsimp only
          by_cases hlt : 16 * (p / 8) + d < 2 ^ 27
          · rw [if_pos hlt]
            have := ih (chunkState 0 (16 * (p / 8) + d)) w1 hw1 (chunkState_testBit 0 _ (by norm_num))
            exact ⟨this.1.trans (List.suffix_cons b w1), this.2⟩
          · rw [if_neg hlt]
            exact ⟨List.suffix_rfl, fun _ => rfl⟩
        | none =>
          dsimp only
          by_cases hbcr : b = 13
          · rw [if_pos hbcr]
            have := ih (chunkState 1 (p / 8)) w1 hw1 (chunkState_testBit 1 _ (by norm_num))
            exact ⟨this.1.trans (List.suffix_cons b w1), this.2⟩
          · rw [if_neg hbcr]
            exact ⟨List.suffix_rfl, fun _ => rfl⟩
      · rw [if_neg ht0]
        by_cases ht1 : p % 8 = 1
        · rw [if_pos ht1]
          by_cases hblf : b = 10
          · rw [if_pos hblf]
            by_cases hv0 : p / 8 = 0
            · rw [if_pos hv0]
              have := ih (chunkState 4 2) w1 hw1 (chunkState_testBit 4 _ (by norm_num))
              exact ⟨this.1.trans (List.suffix_cons b w1), this.2⟩
            · rw [if_neg hv0]
              have := ih (chunkState 2 (p / 8)) w1 hw1 (chunkState_testBit 2 _ (by norm_num))
              exact ⟨this.1.trans (List.suffix_cons b w1), this.2⟩
          · rw [if_neg hblf]
            exact ⟨List.suffix_rfl, fun _ => rfl⟩
        · rw [if_neg ht1]
          by_cases ht2 : p % 8 = 2
          · rw [if_pos ht2]
            by_cases hv0 : p / 8 = 0
            · rw [if_pos hv0]
              exact ⟨List.suffix_rfl, fun _ => rfl⟩
            · rw [if_neg hv0]
              by_cases hvle : p / 8 ≤ (b :: w1).length
              · rw [if_pos hvle]
                have hdl : ((b :: w1).drop (p / 8)).length < fuel := by
                  simp at hf ⊢
                  omega
                have := ih (chunkState 3 2) ((b :: w1).drop (p / 8)) hdl
                  (chunkState_testBit 3 _ (by norm_num))
                refine ⟨?_, this.2⟩
                exact this.1.trans (List.drop_suffix _ _)
              · rw [if_neg hvle]
                exact ⟨List.nil_suffix, fun hne => absurd rfl hne⟩
          · rw [if_neg ht2]
            by_cases ht3 : p % 8 = 3
            · rw [if_pos ht3]
              by_cases hc1 : p / 8 = 2 ∧ b = 13
              · rw [if_pos hc1]
                have := ih (chunkState 3 1) w1 hw1 (chunkState_testBit 3 _ (by norm_num))
                exact ⟨this.1.trans (List.suffix_cons b w1), this.2⟩
              · rw [if_neg hc1]
                by_cases hc2 : p / 8 = 1 ∧ b = 10
                · rw [if_pos hc2]
                  have := ih (chunkState 0 0) w1 hw1 (chunkState_testBit 0 _ (by norm_num))
                  exact ⟨this.1.trans (List.suffix_cons b w1), this.2⟩
                · rw [if_neg hc2]
                  exact ⟨List.suffix_rfl, fun _ => rfl⟩
            · rw [if_neg ht3]
              by_cases ht4 : p % 8 = 4
              · rw [if_pos ht4]
                by_cases hc1 : p / 8 = 2 ∧ b = 13
                · rw [if_pos hc1]
                  have := ih (chunkState 4 1) w1 hw1 (chunkState_testBit 4 _ (by norm_num))
                  exact ⟨this.1.trans (List.suffix_cons b w1), this.2⟩
                · rw [if_neg hc1]
                  by_cases hc2 : p / 8 = 1 ∧ b = 10
                  · rw [if_pos hc2]
                    exact ⟨List.suffix_cons b w1, fun _ => rfl⟩
                  · rw [if_neg hc2]
                    exact ⟨List.suffix_rfl, fun _ => rfl⟩
              · rw [if_neg ht4]
                exact ⟨List.suffix_rfl, fun _ => rfl⟩

/-- `chunkedConsumeTop` leaves a suffix of its window; a nonempty leftover
means the state returned to 0. -/
theorem chunkedConsumeTop_spec (s : Nat) (w : Bytes) (hb : s.testBit 31 = true) :
    (chunkedConsumeTop s w).2.2 <:+ w ∧
    ((chunkedConsumeTop s w).2.2 ≠ [] → (chunkedConsumeTop s w).2.1 = 0) :=
  chunkedConsume_spec (w.length + 1) s w (Nat.lt_succ_self _) hb

theorem bfMightHave_bfAdd_self (bf : Nat) (k : Bytes) :
    bfMightHave (bfAdd bf k) k = true := by
  unfold bfMightHave bfAdd
  rw [Nat.testBit_lor, Nat.testBit_two_pow_self]
  simp

theorem bfMightHave_mono (bf : Nat) (k k' : Bytes) (h : bfMightHave bf k = true) :
    bfMightHave (bfAdd bf k') k = true := by
  unfold bfMightHave bfAdd at *
  rw [Nat.testBit_lor, h]
  simp

/-- No false negatives: a key added into a bloom filter fold is always
reported as possibly present. -/
theorem bfMightHave_foldl (hs : List Header) (k : Bytes) :
    ∀ bf : Nat, (∃ hd ∈ hs, hd.key = k) →
      bfMightHave (hs.foldl (fun b hd => bfAdd b hd.key) bf) k = true := by
  induction hs with
  | nil => intro bf h; simp at h
  | cons hd tl ih =>
    intro bf h
    rcases h with ⟨hd', hm, hk⟩
    rcases List.mem_cons.mp hm with rfl | hm
    · rw [List.foldl_cons, hk]
      have hstable : ∀ (l : List Header) (b : Nat), bfMightHave b k = true →
          bfMightHave (l.foldl (fun b hd => bfAdd b hd.key) b) k = true := by
        intro l
        induction l with
        | nil => intro b hb; simpa using hb
        | cons x xs ihx =>
          intro b hb
          rw [List.foldl_cons]
          exact ihx _ (bfMightHave_mono b k x.key hb)
      exact hstable tl _ (bfMightHave_bfAdd_self bf k)
    · rw [List.foldl_cons]
      exact ih _ ⟨hd', hm, hk⟩

/-- The sentinel-terminated scan of `getHeader` finds a key stored before
the first empty-key slot. -/
theorem findHeader_mem (hs : List Header) (k : Bytes)
    (h : ∃ hd ∈ hs.takeWhile (fun x => !x.key.isEmpty), hd.key = k) :
    (⟨k, findHeader hs k⟩ : Header) ∈ hs.takeWhile (fun x => !x.key.isEmpty) := by
  induction hs with
  | nil => simp at h
  | cons hd tl ih =>
    by_cases h0 : hd.key = []
    · rw [show (hd :: tl).takeWhile (fun x => !x.key.isEmpty) = [] from by
        simp [List.takeWhile_cons, h0]] at h
      simp at h
    · rw [show (hd :: tl).takeWhile (fun x => !x.key.isEmpty) =
          hd :: tl.takeWhile (fun x => !x.key.isEmpty) from by
        simp [List.takeWhile_cons, h0]] at h ⊢
      rw [show findHeader (hd :: tl) k =
          (if hd.key = k then hd.value else findHeader tl k) from by
        simp [findHeader, h0]]
      by_cases hkey : hd.key = k
      · rw [if_pos hkey, ← hkey]
        exact List.mem_cons_self _ _
      · rw [if_neg hkey]
        rcases h with ⟨hd', hm, hk⟩
        rcases List.mem_cons.mp hm with rfl | hm
        · exact absurd hk hkey
        · exact List.mem_cons_of_mem _ (ih ⟨hd', hm, hk⟩)

/-- The sentinel-terminated scan of `getHeader` returns the empty slice for
a key absent from the slots before the first empty-key slot. -/
theorem findHeader_not_mem (hs : List Header) (k : Bytes)
    (h : ∀ hd ∈ hs.takeWhile (fun x => !x.key.isEmpty), hd.key ≠ k) :
    findHeader hs k = [] := by
  induction hs with
  | nil => rfl
  | cons hd tl ih =>
    by_cases h0 : hd.key = []
    · show (if hd.key = [] then []
        else if hd.key = k then hd.value else findHeader tl k) = []
      rw [if_pos h0]
    · have hcons : (hd :: tl).takeWhile (fun x => !x.key.isEmpty) =
          hd :: tl.takeWhile (fun x => !x.key.isEmpty) := by
        simp [List.takeWhile_cons, h0]
      have hne : hd.key ≠ k := h hd (by rw [hcons]; exact List.mem_cons_self _ _)
      show (if hd.key = [] then []
        else if hd.key = k then hd.value else findHeader tl k) = []
      rw [if_neg h0, if_neg hne]
      exact ih fun hd' hm => h hd' (by rw [hcons]; exact List.mem_cons_of_mem _ hm)

/-! ## Cancellation traces -/

/-- Shift the event index of an optional (index, token) pair by one. -/
def shiftDiff {α : Type} (o : Option (Nat × α)) : Option (Nat × α) :=
  o.map (fun pr => (pr.1 + 1, pr.2))

/-- The index and returned token of the first request event of a trace
whose handler return differs from `user` (every handler call of a
`consumePostPadded` run receives `user` itself). -/
def firstDiffReq {α : Type} [DecidableEq α] (rh : α → HttpRequest → α) (user : α) :
    List Event → Option (Nat × α)
  | [] => none
  | e :: rest =>
    match e with
    | Event.request r =>
      if rh user r ≠ user then some (0, rh user r)
      else shiftDiff (firstDiffReq rh user rest)
    | _ => shiftDiff (firstDiffReq rh user rest)

section Cancellation

variable {α : Type} [DecidableEq α] (rh : α → HttpRequest → α) (user : α)

theorem firstDiffReq_cons_data (s : Bytes) (f : Bool) (es : List Event) :
    firstDiffReq rh user (Event.data s f :: es) = shiftDiff (firstDiffReq rh user es) := rfl

theorem firstDiffReq_cons_error (es : List Event) :
    firstDiffReq rh user (Event.error :: es) = shiftDiff (firstDiffReq rh user es) := rfl

theorem firstDiffReq_cons_req_step (r : HttpRequest) (es : List Event) :
    firstDiffReq rh user (Event.request r :: es) =
      if rh user r ≠ user then some (0, rh user r)
      else shiftDiff (firstDiffReq rh user es) := rfl

theorem firstDiffReq_cons_req (r : HttpRequest) (es : List Event)
    (h : rh user r = user) :
    firstDiffReq rh user (Event.request r :: es) = shiftDiff (firstDiffReq rh user es) := by
  rw [firstDiffReq_cons_req_step, if_neg (by simp [h])]

theorem firstDiffReq_cons_req_ne (r : HttpRequest) (es : List Event)
    (h : rh user r ≠ user) :
    firstDiffReq rh user (Event.request r :: es) = some (0, rh user r) := by
  rw [firstDiffReq_cons_req_step, if_pos h]

/-- Shift a diff-free prefix over an appended trace. -/
theorem firstDiffReq_append_none (a b : List Event)
    (ha : firstDiffReq rh user a = none) :
    firstDiffReq rh user (a ++ b) =
      (firstDiffReq rh user b).map (fun pr => (pr.1 + a.length, pr.2)) := by
  induction a with
  | nil => cases heq : firstDiffReq rh user b <;> simp [heq]
  | cons e a iha =>
    have hstep : ∀ (l : List Event), firstDiffReq rh user (e :: l) = shiftDiff (firstDiffReq rh user l) := by
      intro l
      cases e with
      | request r =>
        by_cases hr : rh user r = user
        · exact firstDiffReq_cons_req rh user r l hr
        · exact absurd (by rw [firstDiffReq_cons_req_ne rh user r a hr] at ha; exact ha) (by simp)
      | data s f => exact firstDiffReq_cons_data rh user s f l
      | error => exact firstDiffReq_cons_error rh user l
    have ha' : firstDiffReq rh user a = none := by
      have := hstep a
      rw [this] at ha
      unfold shiftDiff at ha
      cases heq : firstDiffReq rh user a with
      | none => rfl
      | some p => rw [heq] at ha; simp at ha
    rw [List.cons_append, hstep (a ++ b), iha ha']
    unfold shiftDiff
    cases firstDiffReq rh user b with
    | none => simp
    | some p => simp; omega

/-- A trace with no request events has no differing request event. -/
theorem firstDiffReq_no_req (es : List Event)
    (h : ∀ e ∈ es, eventKind e ≠ EventKind.request) :
    firstDiffReq rh user es = none := by
  induction es with
  | nil => rfl
  | cons e es ih =>
    have he := h e (List.mem_cons_self _ _)
    have hrest := ih fun e' hm => h e' (List.mem_cons_of_mem _ hm)
    cases e with
    | request r => exact absurd rfl he
    | data s f =>
      rw [firstDiffReq_cons_data rh user s f es, hrest]
      rfl
    | error =>
      rw [firstDiffReq_cons_error rh user es, hrest]
      rfl

/-- Data events produced by mapping chunk payloads carry no request. -/
theorem eventKind_map_data (cs : List Bytes) :
    ∀ e ∈ cs.map (fun c => Event.data c c.isEmpty), eventKind e ≠ EventKind.request := by
  intro e hm
  obtain ⟨c, _, rfl⟩ := List.mem_map.mp hm
  simp [eventKind]

/-- The events emitted by `dispatchBody` are data events only. -/
theorem dispatchBody_no_req (minimal : Bool) (rem : Nat) (req : HttpRequest) (w : Bytes) :
    ∀ e ∈ (dispatchBody minimal rem req w).1, eventKind e ≠ EventKind.request := by
  intro e hm
  by_cases hget : req.getMethod = strBytes "get"
  · simp [dispatchBody, hget] at hm
    rcases hm with rfl
    simp [eventKind]
  · by_cases hcl : req.getHeader (strBytes "content-length") = []
    · by_cases hmin : minimal = true
      · simp [dispatchBody, hget, hcl, hmin] at hm
      · simp [dispatchBody, hget, hcl, hmin] at hm
        obtain ⟨c, -, rfl⟩ := hm
        simp [eventKind]
    · by_cases hmin : minimal = true
      · simp [dispatchBody, hget, hcl, hmin] at hm
      · simp [dispatchBody, hget, hcl, hmin] at hm
        rcases hm with rfl
        simp [eventKind]

end Cancellation

section FenceStep

variable {α : Type} [DecidableEq α] (minimal : Bool) (rh : α → HttpRequest → α) (user : α)

theorem fenceLoop_zero (rem : Nat) (w : Bytes) :
    fenceLoop minimal rh user 0 rem w = (0, [], user, rem) := rfl

theorem fenceLoop_empty (fuel rem : Nat) (w : Bytes) (h : w.length = 0) :
    fenceLoop minimal rh user (fuel + 1) rem w = (0, [], user, rem) := by
  unfold fenceLoop
  rw [if_pos h]

theorem fenceLoop_ghNone (fuel rem : Nat) (w : Bytes) (h : ¬w.length = 0)
    (hg : getHeaders (w ++ [13, 97]) = none) :
    fenceLoop minimal rh user (fuel + 1) rem w = (0, [], user, rem) := by
  unfold fenceLoop
  rw [if_neg h, hg]

theorem fenceLoop_ret (fuel rem n : Nat) (hs : List Header) (w : Bytes)
    (h : ¬w.length = 0) (hg : getHeaders (w ++ [13, 97]) = some (n, hs))
    (hr : rh user (mkRequest hs) ≠ user) :
    fenceLoop minimal rh user (fuel + 1) rem w =
      (n, [Event.request (mkRequest hs)], rh user (mkRequest hs), rem) := by
  unfold fenceLoop
  rw [if_neg h, hg]
  dsimp only
  rw [if_pos hr]

theorem fenceLoop_min (fuel rem n : Nat) (hs : List Header) (w : Bytes)
    (h : ¬w.length = 0) (hg : getHeaders (w ++ [13, 97]) = some (n, hs))
    (hr : rh user (mkRequest hs) = user) :
    fenceLoop true rh user (fuel + 1) rem w =
      (n + (dispatchBody true rem (mkRequest hs) (w.drop n)).2.2.2,
        Event.request (mkRequest hs) :: (dispatchBody true rem (mkRequest hs) (w.drop n)).1,
        user,
        (dispatchBody true rem (mkRequest hs) (w.drop n)).2.1) := by
  unfold fenceLoop
  rw [if_neg h, hg]
  dsimp only
  rw [if_neg (by simp [hr]), if_pos rfl]

theorem fenceLoop_go (fuel rem n : Nat) (hs : List Header) (w : Bytes)
    (h : ¬w.length = 0) (hg : getHeaders (w ++ [13, 97]) = some (n, hs))
    (hr : rh user (mkRequest hs) = user) :
    fenceLoop false rh user (fuel + 1) rem w =
      (n + (dispatchBody false rem (mkRequest hs) (w.drop n)).2.2.2 +
          (fenceLoop false rh user fuel
            (dispatchBody false rem (mkRequest hs) (w.drop n)).2.1
            (dispatchBody false rem (mkRequest hs) (w.drop n)).2.2.1).1,
        Event.request (mkRequest hs) ::
          (dispatchBody false rem (mkRequest hs) (w.drop n)).1 ++
          (fenceLoop false rh user fuel
            (dispatchBody false rem (mkRequest hs) (w.drop n)).2.1
            (dispatchBody false rem (mkRequest hs) (w.drop n)).2.2.1).2.1,
        (fenceLoop false rh user fuel
          (dispatchBody false rem (mkRequest hs) (w.drop n)).2.1
          (dispatchBody false rem (mkRequest hs) (w.drop n)).2.2.1).2.2.1,
        (fenceLoop false rh user fuel
          (dispatchBody false rem (mkRequest hs) (w.drop n)).2.1
          (dispatchBody false rem (mkRequest hs) (w.drop n)).2.2.1).2.2.2) := by
  conv_lhs => unfold fenceLoop
  rw [if_neg h, hg]
  dsimp only
  rw [if_neg (by simp [hr]), if_neg (by simp)]

end FenceStep

section CancellationFence

variable {α : Type} [DecidableEq α] (rh : α → HttpRequest → α) (user : α)

/-- Cancellation discipline of the head loop: either every request-handler
invocation returned `user` (and the loop returns `user`), or the first
differing request event is the very last event of the loop's trace and its
return value is the loop's returned token. -/
theorem fenceLoop_cancel (minimal : Bool) :
    ∀ (fuel rem : Nat) (w : Bytes),
      (firstDiffReq rh user (fenceLoop minimal rh user fuel rem w).2.1 = none ∧
        (fenceLoop minimal rh user fuel rem w).2.2.1 = user) ∨
      (∃ v, v ≠ user ∧
        firstDiffReq rh user (fenceLoop minimal rh user fuel rem w).2.1 =
          some ((fenceLoop minimal rh user fuel rem w).2.1.length - 1, v) ∧
        1 ≤ (fenceLoop minimal rh user fuel rem w).2.1.length ∧
        (fenceLoop minimal rh user fuel rem w).2.2.1 = v) := by
  intro fuel
  induction fuel with
  | zero =>
    intro rem w
    rw [fenceLoop_zero]
    exact Or.inl ⟨rfl, rfl⟩
  | succ fuel ih =>
    intro rem w
    by_cases hw : w.length = 0
    · rw [fenceLoop_empty minimal rh user fuel rem w hw]
      exact Or.inl ⟨rfl, rfl⟩
    · cases hg : getHeaders (w ++ [13, 97]) with
      | none =>
        rw [fenceLoop_ghNone minimal rh user fuel rem w hw hg]
        exact Or.inl ⟨rfl, rfl⟩
      | some pr =>
        obtain ⟨n, hs⟩ := pr
        by_cases hret : rh user (mkRequest hs) = user
        · cases minimal with
          | true =>
            rw [fenceLoop_min rh user fuel rem n hs w hw hg hret]
            dsimp only
            refine Or.inl ⟨?_, rfl⟩
            rw [firstDiffReq_cons_req rh user _ _ hret,
              firstDiffReq_no_req rh user _ (dispatchBody_no_req _ _ _ _)]
            rfl
          | false =>
            rw [fenceLoop_go rh user fuel rem n hs w hw hg hret]
            dsimp only
            have hnoreq : firstDiffReq rh user
                (dispatchBody false rem (mkRequest hs) (w.drop n)).1 = none :=
              firstDiffReq_no_req rh user _ (dispatchBody_no_req _ _ _ _)
            rcases ih (dispatchBody false rem (mkRequest hs) (w.drop n)).2.1
                (dispatchBody false rem (mkRequest hs) (w.drop n)).2.2.1 with
              ⟨hnone, huser⟩ | ⟨v, hv, hsome, hlen, hretv⟩
            · refine Or.inl ⟨?_, huser⟩
              rw [List.cons_append, firstDiffReq_cons_req rh user _ _ hret,
                firstDiffReq_append_none rh user _ _ hnoreq, hnone]
              rfl
            · refine Or.inr ⟨v, hv, ?_, by simp, hretv⟩
              rw [List.cons_append, firstDiffReq_cons_req rh user _ _ hret,
                firstDiffReq_append_none rh user _ _ hnoreq, hsome]
              unfold shiftDiff
              simp
              omega
        · rw [fenceLoop_ret minimal rh user fuel rem n hs w hw hg hret]
          dsimp only
          refine Or.inr ⟨rh user (mkRequest hs), hret, ?_, by simp, rfl⟩
          rw [firstDiffReq_cons_req_ne rh user _ _ hret]
          rfl

/-- Cancellation discipline of the fresh-parse-and-stash stage, given that
the events already emitted contain no differing request event. -/
theorem consumeFreshAndStash_cancel (eh : α → α) (evs0 : List Event)
    (fb : Bytes) (rem : Nat) (w : Bytes)
    (h0 : firstDiffReq rh user evs0 = none) :
    ∀ i v, firstDiffReq rh user (consumeFreshAndStash rh eh user evs0 fb rem w).1 =
        some (i, v) →
      i + 1 = (consumeFreshAndStash rh eh user evs0 fb rem w).1.length ∧
      (consumeFreshAndStash rh eh user evs0 fb rem w).2.1 = v := by
  intro i v hdiff
  unfold consumeFreshAndStash at hdiff ⊢
  rcases fenceLoop_cancel rh user false (w.length + 1) rem w with
    ⟨hnone, huser⟩ | ⟨v0, hv0, hsome, hlen, hret⟩
  · rw [if_neg (by simp [fenceAndConsumePostPadded, huser])] at hdiff ⊢
    have hnone2 : firstDiffReq rh user
        (evs0 ++ (fenceAndConsumePostPadded false rh user rem w).2.1) = none := by
      rw [firstDiffReq_append_none rh user _ _ h0]
      unfold fenceAndConsumePostPadded
      rw [hnone]
      rfl
    dsimp only at hdiff ⊢
    split_ifs at hdiff ⊢
    · dsimp only at hdiff
      rw [hnone2] at hdiff
      simp at hdiff
    · dsimp only at hdiff
      rw [firstDiffReq_append_none rh user _ _ hnone2] at hdiff
      have herr : firstDiffReq rh user [Event.error] = none := rfl
      rw [herr] at hdiff
      simp at hdiff
    · dsimp only at hdiff
      rw [hnone2] at hdiff
      simp at hdiff
  · rw [if_pos (by unfold fenceAndConsumePostPadded; rw [hret]; exact hv0)] at hdiff ⊢
    rw [firstDiffReq_append_none rh user _ _ h0] at hdiff
    unfold fenceAndConsumePostPadded at hdiff ⊢
    rw [hsome] at hdiff
    simp at hdiff
    obtain ⟨hi, hvv⟩ := hdiff
    subst hvv
    constructor
    · simp
      omega
    · exact hret

/-- Cancellation discipline of a whole `consumePostPadded` call: once the
request handler returns a token different from `user`, that request event
is the last event of the call and the differing token is returned. -/
theorem consume_cancel (dh : α → Bytes → Bool → α) (eh : α → α)
    (st : ParserState) (data : Bytes) :
    ∀ i v, firstDiffReq rh user (consumePostPadded rh dh eh user st data).1 =
        some (i, v) →
      i + 1 = (consumePostPadded rh dh eh user st data).1.length ∧
      (consumePostPadded rh dh eh user st data).2.1 = v := by
  intro i v hdiff
  unfold consumePostPadded at hdiff ⊢
  by_cases h1 : st.remaining ≠ 0
  · rw [if_pos h1] at hdiff ⊢
    by_cases h2 : isParsingChunkedEncoding st.remaining = true
    · rw [if_pos h2] at hdiff ⊢
      exact consumeFreshAndStash_cancel rh user eh _ _ _ _
        (firstDiffReq_no_req rh user _ (eventKind_map_data _)) i v hdiff
    · rw [if_neg h2] at hdiff ⊢
      by_cases h3 : data.length ≤ st.remaining
      · rw [if_pos h3] at hdiff ⊢
        dsimp only at hdiff
        exact absurd hdiff (by
          rw [show firstDiffReq rh user
            [Event.data data (st.remaining == data.length)] = none from rfl]
          simp)
      · rw [if_neg h3] at hdiff ⊢
        dsimp only at hdiff ⊢
        by_cases h4 : dh user (data.take st.remaining) true ≠ user
        · rw [if_pos h4] at hdiff ⊢
          dsimp only at hdiff
          exact absurd hdiff (by
            rw [show firstDiffReq rh user
              [Event.data (data.take st.remaining) true] = none from rfl]
            simp)
        · rw [if_neg h4] at hdiff ⊢
          exact consumeFreshAndStash_cancel rh user eh _ _ _ _
            (show firstDiffReq rh user
              [Event.data (data.take st.remaining) true] = none from rfl) i v hdiff
  · rw [if_neg h1] at hdiff ⊢
    by_cases h5 : st.fallback.length ≠ 0
    · rw [if_pos h5] at hdiff ⊢
      dsimp only at hdiff ⊢
      rcases fenceLoop_cancel rh user true
          ((st.fallback ++ data.take (min (MAX_FALLBACK_SIZE - st.fallback.length)
            data.length)).length + 1) 0
          (st.fallback ++ data.take (min (MAX_FALLBACK_SIZE - st.fallback.length)
            data.length)) with
        ⟨hnone, huser⟩ | ⟨v0, hv0, hsome, hlen, hret⟩
      · rw [if_neg (by
          simp only [fenceAndConsumePostPadded]
          rw [huser]
          simp)] at hdiff ⊢
        by_cases h6 : (fenceAndConsumePostPadded true rh user 0
            (st.fallback ++ data.take (min (MAX_FALLBACK_SIZE - st.fallback.length)
              data.length))).1 ≠ 0
        · rw [if_pos h6] at hdiff ⊢
          have hfe : firstDiffReq rh user (fenceAndConsumePostPadded true rh user 0
              (st.fallback ++ data.take (min (MAX_FALLBACK_SIZE - st.fallback.length)
                data.length))).2.1 = none := by
            simp only [fenceAndConsumePostPadded]
            exact hnone
          by_cases h7 : (fenceAndConsumePostPadded true rh user 0
              (st.fallback ++ data.take (min (MAX_FALLBACK_SIZE - st.fallback.length)
                data.length))).2.2.2 ≠ 0
          · rw [if_pos h7] at hdiff ⊢
            by_cases h8 : (data.drop ((fenceAndConsumePostPadded true rh user 0
                (st.fallback ++ data.take (min (MAX_FALLBACK_SIZE - st.fallback.length)
                  data.length))).1 - st.fallback.length)).length ≤
                (fenceAndConsumePostPadded true rh user 0
                  (st.fallback ++ data.take (min (MAX_FALLBACK_SIZE - st.fallback.length)
                    data.length))).2.2.2
            · rw [if_pos h8] at hdiff ⊢
              dsimp only at hdiff
              exact absurd hdiff (by
                rw [firstDiffReq_append_none rh user _ _ hfe]
                rw [show ∀ s f, firstDiffReq rh user [Event.data s f] = none from
                  fun s f => rfl]
                simp)
            · rw [if_neg h8] at hdiff ⊢
              try dsimp only at hdiff ⊢
              split_ifs at hdiff ⊢ with h9
              · dsimp only at hdiff
                exact absurd hdiff (by
                  rw [firstDiffReq_append_none rh user _ _ hfe]
                  rw [show ∀ s f, firstDiffReq rh user [Event.data s f] = none from
                    fun s f => rfl]
                  simp)
              · refine consumeFreshAndStash_cancel rh user eh _ _ _ _ ?_ i v hdiff
                rw [firstDiffReq_append_none rh user _ _ hfe]
                rw [show ∀ s f, firstDiffReq rh user [Event.data s f] = none from
                  fun s f => rfl]
                rfl
          · rw [if_neg h7] at hdiff ⊢
            exact consumeFreshAndStash_cancel rh user eh _ _ _ _ hfe i v hdiff
        · rw [if_neg h6] at hdiff ⊢
          have hfe : firstDiffReq rh user (fenceAndConsumePostPadded true rh user 0
              (st.fallback ++ data.take (min (MAX_FALLBACK_SIZE - st.fallback.length)
                data.length))).2.1 = none := by
            simp only [fenceAndConsumePostPadded]
            exact hnone
          split_ifs at hdiff ⊢
          · dsimp only at hdiff
            exact absurd hdiff (by
              rw [firstDiffReq_append_none rh user _ _ hfe]
              rw [show firstDiffReq rh user [Event.error] = none from rfl]
              simp)
          · dsimp only at hdiff
            exact absurd hdiff (by rw [hfe]; simp)
      · rw [if_pos (by
          simp only [fenceAndConsumePostPadded]
          rw [hret]
          exact hv0)] at hdiff ⊢
        dsimp only at hdiff ⊢
        simp only [fenceAndConsumePostPadded] at hdiff ⊢
        rw [hsome] at hdiff
        simp only [Option.some.injEq, Prod.mk.injEq] at hdiff
        obtain ⟨hi, hvv⟩ := hdiff
        subst hvv
        exact ⟨by omega, hret⟩
    · rw [if_neg h5] at hdiff ⊢
      exact consumeFreshAndStash_cancel rh user eh _ _ _ _
        (show firstDiffReq rh user [] = none from rfl) i v hdiff

end CancellationFence

/-! ## Invariant lemmas: mutual exclusion of fallback and body state -/

theorem suffix_drop_eq {γ : Type} (s w : List γ) (h : s <:+ w) :
    w.drop (w.length - s.length) = s := by
  obtain ⟨t, rfl⟩ := h
  simp

section InvariantLemmas

variable {α : Type} [DecidableEq α] (rh : α → HttpRequest → α) (user : α)

/-- One body dispatch (maximal mode): the new window is the old one less
the consumed bytes, and a nonempty leftover window forces the new body
state to be 0 or the incoming one. -/
theorem dispatchBody_spec (rem : Nat) (req : HttpRequest) (w : Bytes) :
    (dispatchBody false rem req w).2.2.1 = w.drop (dispatchBody false rem req w).2.2.2 ∧
    ((dispatchBody false rem req w).2.2.1 ≠ [] →
      (dispatchBody false rem req w).2.1 = 0 ∨ (dispatchBody false rem req w).2.1 = rem) := by
  by_cases hget : req.getMethod = strBytes "get"
  · rw [show dispatchBody false rem req w = ([Event.data [] true], rem, w, 0) from by
      simp [dispatchBody, hget]]
    exact ⟨rfl, fun _ => Or.inr rfl⟩
  · by_cases hcl : req.getHeader (strBytes "content-length") = []
    · have hrw : dispatchBody false rem req w =
          ((chunkedConsumeTop STATE_IS_CHUNKED w).1.map (fun c => Event.data c c.isEmpty),
            (chunkedConsumeTop STATE_IS_CHUNKED w).2.1,
            (chunkedConsumeTop STATE_IS_CHUNKED w).2.2,
            w.length - (chunkedConsumeTop STATE_IS_CHUNKED w).2.2.length) := by
        simp [dispatchBody, hget, hcl]
      rw [hrw]
      have hbit : STATE_IS_CHUNKED.testBit 31 = true := by
        unfold STATE_IS_CHUNKED
        exact Nat.testBit_two_pow_self
      obtain ⟨hsuf, hprog⟩ := chunkedConsumeTop_spec STATE_IS_CHUNKED w hbit
      exact ⟨(suffix_drop_eq _ _ hsuf).symm, fun hne => Or.inl (hprog hne)⟩
    · have hrw : dispatchBody false rem req w =
          ([Event.data (w.take (min (toUnsignedInteger
              (req.getHeader (strBytes "content-length"))) w.length))
            (min (toUnsignedInteger (req.getHeader (strBytes "content-length")))
              w.length == toUnsignedInteger (req.getHeader (strBytes "content-length")))],
            toUnsignedInteger (req.getHeader (strBytes "content-length")) -
              min (toUnsignedInteger (req.getHeader (strBytes "content-length"))) w.length,
            w.drop (min (toUnsignedInteger (req.getHeader (strBytes "content-length")))
              w.length),
            min (toUnsignedInteger (req.getHeader (strBytes "content-length"))) w.length) := by
        simp [dispatchBody, hget, hcl]
      rw [hrw]
      refine ⟨rfl, fun hne => Or.inl ?_⟩
      have hlt : min (toUnsignedInteger (req.getHeader (strBytes "content-length")))
          w.length < w.length := by
        by_contra hge
        push_neg at hge
        have : w.drop (min (toUnsignedInteger
            (req.getHeader (strBytes "content-length"))) w.length) = [] := by
          apply List.drop_eq_nil_of_le
          omega
        exact hne this
      dsimp only
      omega

/-- Maximal fence runs that were entered with no body in progress and
return the unchanged token leave `remainingStreamingBytes = 0` whenever
unconsumed bytes remain. -/
theorem fenceLoop_exit :
    ∀ (fuel rem : Nat) (w : Bytes), (rem = 0 ∨ w = []) →
      (fenceLoop false rh user fuel rem w).2.2.1 = user →
      w.drop (fenceLoop false rh user fuel rem w).1 ≠ [] →
      (fenceLoop false rh user fuel rem w).2.2.2 = 0 := by
  intro fuel
  induction fuel with
  | zero =>
    intro rem w hin huser hne
    rw [fenceLoop_zero] at hne huser ⊢
    simp at hne
    rcases hin with h | h
    · exact h
    · exact absurd h hne
  | succ fuel ih =>
    intro rem w hin huser hne
    by_cases hw : w.length = 0
    · rw [fenceLoop_empty false rh user fuel rem w hw] at hne ⊢
      simp at hne
      exact absurd (List.length_eq_zero.mp hw) hne
    · cases hg : getHeaders (w ++ [13, 97]) with
      | none =>
        rw [fenceLoop_ghNone false rh user fuel rem w hw hg] at hne ⊢
        simp at hne
        rcases hin with h | h
        · exact h
        · exact absurd h hne
      | some pr =>
        obtain ⟨n, hs⟩ := pr
        by_cases hret : rh user (mkRequest hs) = user
        · rw [fenceLoop_go rh user fuel rem n hs w hw hg hret] at huser hne ⊢
          dsimp only at huser hne ⊢
          have hrem0 : rem = 0 := by
            rcases hin with h | h
            · exact h
            · exact absurd (by rw [h]; rfl) hw
          subst hrem0
          obtain ⟨hwin, hprog⟩ := dispatchBody_spec 0 (mkRequest hs) (w.drop n)
          have hdnext : w.drop (n + (dispatchBody false 0 (mkRequest hs) (w.drop n)).2.2.2 +
              (fenceLoop false rh user fuel
                (dispatchBody false 0 (mkRequest hs) (w.drop n)).2.1
                (dispatchBody false 0 (mkRequest hs) (w.drop n)).2.2.1).1) =
              (dispatchBody false 0 (mkRequest hs) (w.drop n)).2.2.1.drop
                (fenceLoop false rh user fuel
                  (dispatchBody false 0 (mkRequest hs) (w.drop n)).2.1
                  (dispatchBody false 0 (mkRequest hs) (w.drop n)).2.2.1).1 := by
            rw [hwin]
            rw [← List.drop_drop, ← List.drop_drop]
          rw [hdnext] at hne
          have hentry : (dispatchBody false 0 (mkRequest hs) (w.drop n)).2.1 = 0 ∨
              (dispatchBody false 0 (mkRequest hs) (w.drop n)).2.2.1 = [] := by
            by_cases hwe : (dispatchBody false 0 (mkRequest hs) (w.drop n)).2.2.1 = []
            · exact Or.inr hwe
            · rcases hprog hwe with h | h
              · exact Or.inl h
              · exact Or.inl h
          exact ih _ _ hentry huser hne
        · rw [fenceLoop_ret false rh user fuel rem n hs w hw hg hret] at huser
          exact absurd huser hret

/-- A maximal or minimal fence run that consumed nothing did nothing. -/
theorem fenceLoop_c0 (minimal : Bool) :
    ∀ (fuel rem : Nat) (w : Bytes),
      (fenceLoop minimal rh user fuel rem w).1 = 0 →
      fenceLoop minimal rh user fuel rem w = (0, [], user, rem) := by
  intro fuel rem w hc
  cases fuel with
  | zero => rw [fenceLoop_zero]
  | succ fuel =>
    by_cases hw : w.length = 0
    · rw [fenceLoop_empty minimal rh user fuel rem w hw]
    · cases hg : getHeaders (w ++ [13, 97]) with
      | none => rw [fenceLoop_ghNone minimal rh user fuel rem w hw hg]
      | some pr =>
        obtain ⟨n, hs⟩ := pr
        have hn4 : 4 ≤ n := (getHeaders_spec w n hs hg).1
        exfalso
        by_cases hret : rh user (mkRequest hs) = user
        · cases minimal with
          | true =>
            rw [fenceLoop_min rh user fuel rem n hs w hw hg hret] at hc
            dsimp only at hc
            omega
          | false =>
            rw [fenceLoop_go rh user fuel rem n hs w hw hg hret] at hc
            dsimp only at hc
            omega
        · rw [fenceLoop_ret minimal rh user fuel rem n hs w hw hg hret] at hc
          dsimp only at hc
          omega

/-- The stash stage run from an empty fallback, entered with no body in
progress (or nothing to parse), leaves a state in which the fallback and
the body state are never simultaneously active, and a fallback no longer
than `MAX_FALLBACK_SIZE`. -/
theorem consumeFreshAndStash_inv (eh : α → α) (evs0 : List Event)
    (rem0 : Nat) (w : Bytes) (hrw : rem0 = 0 ∨ w = []) :
    ((consumeFreshAndStash rh eh user evs0 [] rem0 w).2.2.fallback = [] ∨
      (consumeFreshAndStash rh eh user evs0 [] rem0 w).2.2.remaining = 0) ∧
    (consumeFreshAndStash rh eh user evs0 [] rem0 w).2.2.fallback.length ≤
      MAX_FALLBACK_SIZE := by
  unfold consumeFreshAndStash
  by_cases hne : (fenceAndConsumePostPadded false rh user rem0 w).2.2.1 ≠ user
  · rw [if_pos hne]
    exact ⟨Or.inl rfl, by simp [MAX_FALLBACK_SIZE]⟩
  · rw [if_neg hne]
    push_neg at hne
    dsimp only
    by_cases hlo : (w.drop (fenceAndConsumePostPadded false rh user rem0 w).1).length ≠ 0
    · rw [if_pos hlo]
      have hrem0 : (fenceAndConsumePostPadded false rh user rem0 w).2.2.2 = 0 := by
        unfold fenceAndConsumePostPadded at hne hlo ⊢
        refine fenceLoop_exit rh user _ _ _ hrw hne ?_
        intro hnil
        rw [hnil] at hlo
        simp at hlo
      by_cases hsm : (w.drop (fenceAndConsumePostPadded false rh user rem0 w).1).length <
          MAX_FALLBACK_SIZE
      · rw [if_pos hsm]
        refine ⟨Or.inr hrem0, ?_⟩
        dsimp only
        simp only [List.nil_append]
        omega
      · rw [if_neg hsm]
        exact ⟨Or.inr hrem0, by simp [MAX_FALLBACK_SIZE]⟩
    · rw [if_neg hlo]
      exact ⟨Or.inl rfl, by simp [MAX_FALLBACK_SIZE]⟩

/-- Specialisation of `consumeFreshAndStash_inv` to a zero entry state. -/
theorem consumeFreshAndStash_inv0 (eh : α → α) (evs0 : List Event) (w : Bytes) :
    ((consumeFreshAndStash rh eh user evs0 [] 0 w).2.2.fallback = [] ∨
      (consumeFreshAndStash rh eh user evs0 [] 0 w).2.2.remaining = 0) ∧
    (consumeFreshAndStash rh eh user evs0 [] 0 w).2.2.fallback.length ≤
      MAX_FALLBACK_SIZE :=
  consumeFreshAndStash_inv rh user eh evs0 0 w (Or.inl rfl)

/-- State invariants of one `consumePostPadded` call: when the call hands
back the unchanged token, at most one of the fallback buffer and
`remainingStreamingBytes` is active afterwards; and, unconditionally, the
fallback buffer never exceeds `MAX_FALLBACK_SIZE`. -/
theorem consume_inv (dh : α → Bytes → Bool → α) (eh : α → α)
    (st : ParserState) (data : Bytes)
    (hInv : st.fallback = [] ∨ st.remaining = 0) :
    ((consumePostPadded rh dh eh user st data).2.1 = user →
      ((consumePostPadded rh dh eh user st data).2.2.fallback = [] ∨
        (consumePostPadded rh dh eh user st data).2.2.remaining = 0)) ∧
    (st.fallback.length ≤ MAX_FALLBACK_SIZE →
      (consumePostPadded rh dh eh user st data).2.2.fallback.length ≤
        MAX_FALLBACK_SIZE) := by
  unfold consumePostPadded
  by_cases h1 : st.remaining ≠ 0
  · have hfb : st.fallback = [] := by
      rcases hInv with h | h
      · exact h
      · exact absurd h h1
    rw [if_pos h1]
    by_cases h2 : isParsingChunkedEncoding st.remaining = true
    · rw [if_pos h2, hfb]
      have hprog := chunkedConsumeTop_spec st.remaining data h2
      have hcond : (chunkedConsumeTop st.remaining data).2.1 = 0 ∨
          (chunkedConsumeTop st.remaining data).2.2 = [] := by
        by_cases hwe : (chunkedConsumeTop st.remaining data).2.2 = []
        · exact Or.inr hwe
        · exact Or.inl (hprog.2 hwe)
      have hstash := consumeFreshAndStash_inv rh user eh
        ((chunkedConsumeTop st.remaining data).1.map (fun c => Event.data c c.isEmpty))
        (chunkedConsumeTop st.remaining data).2.1
        (chunkedConsumeTop st.remaining data).2.2 hcond
      exact ⟨fun _ => hstash.1, fun _ => hstash.2⟩
    · rw [if_neg h2]
      by_cases h3 : data.length ≤ st.remaining
      · rw [if_pos h3]
        exact ⟨fun _ => Or.inl hfb, fun hB => by simpa [hfb] using hB⟩
      · rw [if_neg h3]
        dsimp only
        by_cases h4 : dh user (data.take st.remaining) true ≠ user
        · rw [if_pos h4]
          exact ⟨fun _ => Or.inr rfl, fun hB => by simpa [hfb] using hB⟩
        · rw [if_neg h4, hfb]
          have hstash := consumeFreshAndStash_inv0 rh user eh
            [Event.data (data.take st.remaining) true] (data.drop st.remaining)
          exact ⟨fun _ => hstash.1, fun _ => hstash.2⟩
  · rw [if_neg h1]
    push_neg at h1
    by_cases h5 : st.fallback.length ≠ 0
    · rw [if_pos h5]
      dsimp only
      have hlen' : st.fallback.length ≤ MAX_FALLBACK_SIZE →
          (st.fallback ++ data.take (min (MAX_FALLBACK_SIZE - st.fallback.length)
            data.length)).length ≤ MAX_FALLBACK_SIZE := by
        intro hB
        simp
        omega
      by_cases h6 : (fenceAndConsumePostPadded true rh user 0
          (st.fallback ++ data.take (min (MAX_FALLBACK_SIZE - st.fallback.length)
            data.length))).2.2.1 ≠ user
      · rw [if_pos h6]
        exact ⟨fun hres => absurd hres h6, hlen'⟩

      · rw [if_neg h6]
        by_cases h7 : (fenceAndConsumePostPadded true rh user 0
            (st.fallback ++ data.take (min (MAX_FALLBACK_SIZE - st.fallback.length)
              data.length))).1 ≠ 0
        · rw [if_pos h7]
          by_cases h8 : (fenceAndConsumePostPadded true rh user 0
              (st.fallback ++ data.take (min (MAX_FALLBACK_SIZE - st.fallback.length)
                data.length))).2.2.2 ≠ 0
          · rw [if_pos h8]
            by_cases h9 : (data.drop ((fenceAndConsumePostPadded true rh user 0
                (st.fallback ++ data.take (min (MAX_FALLBACK_SIZE - st.fallback.length)
                  data.length))).1 - st.fallback.length)).length ≤
                (fenceAndConsumePostPadded true rh user 0
                  (st.fallback ++ data.take (min (MAX_FALLBACK_SIZE - st.fallback.length)
                    data.length))).2.2.2
            · rw [if_pos h9]
              exact ⟨fun _ => Or.inl rfl, fun _ => by simp [MAX_FALLBACK_SIZE]⟩
            · rw [if_neg h9]
              try dsimp only
              split_ifs with h10
              · exact ⟨fun _ => Or.inl rfl, fun _ => by simp [MAX_FALLBACK_SIZE]⟩
              · exact ⟨fun _ => (consumeFreshAndStash_inv0 rh user eh _ _).1,
                  fun _ => (consumeFreshAndStash_inv0 rh user eh _ _).2⟩
          · rw [if_neg h8]
            exact ⟨fun _ => (consumeFreshAndStash_inv0 rh user eh _ _).1,
              fun _ => (consumeFreshAndStash_inv0 rh user eh _ _).2⟩
        · rw [if_neg h7]
          push_neg at h7
          have hr1 := fenceLoop_c0 rh user true _ _ _ (by
            unfold fenceAndConsumePostPadded at h7
            exact h7)
          have hrem1 : (fenceAndConsumePostPadded true rh user 0
              (st.fallback ++ data.take (min (MAX_FALLBACK_SIZE - st.fallback.length)
                data.length))).2.2.2 = 0 := by
            unfold fenceAndConsumePostPadded
            rw [hr1]
          split_ifs with h10
          · exact ⟨fun _ => Or.inr hrem1, hlen'⟩
          · exact ⟨fun _ => Or.inr hrem1, hlen'⟩
    · rw [if_neg h5]
      push_neg at h5
      have hfb : st.fallback = [] := List.length_eq_zero.mp h5
      rw [hfb]
      have hstash := consumeFreshAndStash_inv0 rh user eh [] data
      exact ⟨fun _ => hstash.1, fun _ => hstash.2⟩

/-- Residual-overflow error path: fresh parsing from a clean state that
leaves at least `MAX_FALLBACK_SIZE` unconsumed bytes invokes the error
handler and returns its result, as the last event of the call. -/
theorem consume_overflow (dh : α → Bytes → Bool → α) (eh : α → α) (data : Bytes)
    (hu : (fenceAndConsumePostPadded false rh user 0 data).2.2.1 = user)
    (hbig : MAX_FALLBACK_SIZE ≤
      (data.drop (fenceAndConsumePostPadded false rh user 0 data).1).length) :
    (consumePostPadded rh dh eh user ⟨[], 0⟩ data).2.1 = eh user ∧
    (consumePostPadded rh dh eh user ⟨[], 0⟩ data).1.getLast? = some Event.error := by
  unfold consumePostPadded
  rw [if_neg (by simp), if_neg (by simp)]
  unfold consumeFreshAndStash
  rw [if_neg (by simp [hu])]
  dsimp only
  rw [if_pos (by unfold MAX_FALLBACK_SIZE at hbig; omega),
    if_neg (by omega)]
  refine ⟨rfl, ?_⟩
  dsimp only
  rw [List.getLast?_append]
  rfl

/-- Fallback-full error path: when the fallback buffer (after topping up)
is full and the minimal fence pass consumed nothing, the error handler is
invoked and its result returned. -/
theorem consume_fallback_full (dh : α → Bytes → Bool → α) (eh : α → α)
    (st : ParserState) (data : Bytes)
    (h1 : st.remaining = 0) (h5 : st.fallback.length ≠ 0)
    (hc0 : (fenceAndConsumePostPadded true rh user 0
      (st.fallback ++ data.take (min (MAX_FALLBACK_SIZE - st.fallback.length)
        data.length))).1 = 0)
    (hfull : (st.fallback ++ data.take (min (MAX_FALLBACK_SIZE - st.fallback.length)
      data.length)).length = MAX_FALLBACK_SIZE) :
    (consumePostPadded rh dh eh user st data).2.1 = eh user ∧
    (consumePostPadded rh dh eh user st data).1.getLast? = some Event.error := by
  have hr1 := fenceLoop_c0 rh user true _ _ _ (by
    unfold fenceAndConsumePostPadded at hc0
    exact hc0)
  unfold consumePostPadded
  rw [if_neg (by simp [h1]), if_pos h5]
  dsimp only
  rw [if_neg (by
    unfold fenceAndConsumePostPadded
    rw [hr1]
    simp)]
  rw [if_neg (by
    unfold fenceAndConsumePostPadded
    rw [hr1]
    simp)]
  rw [if_pos (by simp [hfull])]
  refine ⟨rfl, ?_⟩
  dsimp only
  rw [List.getLast?_append]
  rfl

end InvariantLemmas

/-! ## Parsing a single well-formed request line -/

theorem trimToValue_cons_stop (b : Nat) (r : Bytes)
    (h : ¬((b = 58 ∨ b < 33) ∧ b ≠ 13)) : trimToValue (b :: r) = b :: r := by
  simp only [trimToValue, if_neg h]

/-- `getHeaders` on a head made of a single request line
`method SP rest CRLF CRLF` (already fenced with `[13, 97]`): the stored
slot holds the lower-cased method as key and `rest` (the target plus any
version suffix, as it appeared on the wire) as value. -/
theorem getHeaders_request_line (method rest : Bytes)
    (hm : ∀ b ∈ method, b ≠ 58 ∧ 32 < b)
    (h13 : 13 ∉ rest)
    (hhd : rest = [] ∨ ∃ b0 t, rest = b0 :: t ∧ b0 ≠ 58 ∧ 32 < b0) :
    getHeaders (method ++ 32 :: (rest ++ [13, 10, 13, 10, 13, 97])) =
      some (method.length + 1 + rest.length + 4,
        [⟨method.map (· ||| 32), rest⟩]) := by
  have hscan : scanKey (method ++ 32 :: (rest ++ [13, 10, 13, 10, 13, 97])) =
      (method.map (· ||| 32), 32 :: (rest ++ [13, 10, 13, 10, 13, 97])) :=
    scanKey_append method 32 _ hm (Or.inr le_rfl)
  have htrim : trimToValue (rest ++ [13, 10, 13, 10, 13, 97]) =
      rest ++ [13, 10, 13, 10, 13, 97] := by
    rcases hhd with rfl | ⟨b0, t, rfl, hb0, hb0'⟩
    · simp only [List.nil_append]
      exact trimToValue_cons_stop 13 _ (by simp)
    · rw [List.cons_append]
      exact trimToValue_cons_stop b0 _ (by
        rintro ⟨h1, -⟩
        rcases h1 with h1 | h1
        · exact hb0 h1
        · omega)
  have hskip : skipToValue (32 :: (rest ++ [13, 10, 13, 10, 13, 97])) =
      rest ++ [13, 10, 13, 10, 13, 97] := by
    have : skipToValue (32 :: (rest ++ [13, 10, 13, 10, 13, 97])) =
        trimToValue (32 :: (rest ++ [13, 10, 13, 10, 13, 97])) := rfl
    rw [this, show trimToValue (32 :: (rest ++ [13, 10, 13, 10, 13, 97])) =
      trimToValue (rest ++ [13, 10, 13, 10, 13, 97]) from by
        simp [trimToValue]]
    exact htrim
  have hvalue : scanToCR (rest ++ [13, 10, 13, 10, 13, 97]) =
      (rest, 13 :: [10, 13, 10, 13, 97]) := by
    have hshape : rest ++ [13, 10, 13, 10, 13, 97] =
        rest ++ 13 :: [10, 13, 10, 13, 97] := rfl
    rw [hshape]
    exact scanToCR_append rest _ h13
  have hpl : parseHeaderLine (method ++ 32 :: (rest ++ [13, 10, 13, 10, 13, 97])) =
      some (⟨method.map (· ||| 32), rest⟩, [13, 10, 13, 97]) := by
    unfold parseHeaderLine
    rw [hscan]
    dsimp only
    rw [hskip, hvalue]
  have hloop : getHeadersLoop (MAX_HEADERS - 1)
      (method ++ 32 :: (rest ++ [13, 10, 13, 10, 13, 97])) =
      some ([⟨method.map (· ||| 32), rest⟩], [13, 97]) := by
    show getHeadersLoop (48 + 1) _ = _
    unfold getHeadersLoop
    rw [hpl]
  unfold getHeaders
  rw [hloop]
  simp
  omega

theorem crFollowed_cr_not_lf (c : Nat) (r : Bytes) (hc : c ≠ 10) :
    crFollowed (13 :: c :: r) = false := by
  show (match c :: r with | 10 :: _ => crFollowed (c :: r) | _ => false) = false
  split
  · rename_i heq
    simp at heq
    exact absurd heq.1 hc
  · rfl

theorem crFollowed_getD (l : Bytes) (hcr : crFollowed l = true) :
    ∀ j, l.getD j 0 = 13 → l.getD (j + 1) 0 = 10 := by
  induction l with
  | nil => intro j h; simp [List.getD] at h
  | cons b r ih =>
    intro j hj
    have hstep : crFollowed r = true := by
      by_cases hb : b = 13
      · subst hb
        rcases r with _ | ⟨c, tail⟩
        · rfl
        · by_cases hc : c = 10
          · subst hc
            rwa [crFollowed_cr_lf, crFollowed_cons_ne 10 tail (by decide)] at hcr
          · rw [crFollowed_cr_not_lf c tail hc] at hcr
            exact absurd hcr (by simp)
      · rwa [crFollowed_cons_ne b r hb] at hcr
    cases j with
    | zero =>
      simp [List.getD] at hj
      subst hj
      rcases r with _ | ⟨c, tail⟩
      · exact absurd hcr (by decide)
      · by_cases hc : c = 10
        · subst hc
          simp [List.getD]
        · rw [crFollowed_cr_not_lf c tail hc] at hcr
          exact absurd hcr (by simp)
    | succ j =>
      have hj' : r.getD j 0 = 13 := by simpa [List.getD] using hj
      have := ih hstep j hj'
      simpa [List.getD] using this

theorem suffix_getD_13 (p : Bytes) (hsuf : [13, 10, 13, 10] <:+ p) :
    p.getD (p.length - 4) 0 = 13 := by
  obtain ⟨t, rfl⟩ := hsuf
  have hl : (t ++ [13, 10, 13, 10]).length - 4 = t.length := by simp
  have hget : (t ++ [13, 10, 13, 10])[t.length]? = some 13 := by
    rw [List.getElem?_append_right (le_refl t.length)]
    simp
  rw [hl]
  simp [List.getD_eq_getElem?_getD, hget]

theorem getD_take (w : Bytes) (n j : Nat) (h : j < n) :
    (w.take n).getD j 0 = w.getD j 0 := by
  simp [List.getD, List.getElem?_take, h]

theorem map_lor32_fixed (l : Bytes) (h : ∀ b ∈ l, b ||| 32 = b) :
    l.map (· ||| 32) = l := by
  induction l with
  | nil => rfl
  | cons b r ih =>
    rw [List.map_cons, h b (List.mem_cons_self _ _),
      ih fun x hx => h x (List.mem_cons_of_mem _ hx)]

theorem queryIdx_le_length (v : Bytes) : queryIdx v ≤ v.length := by
  induction v with
  | nil => simp [queryIdx]
  | cons b r ih =>
    by_cases hb : b = 63
    · simp [queryIdx, hb]
    · simp only [queryIdx, if_neg hb, List.length_cons]
      omega

/-- Reassembly around the query separator: taking the bytes before the
first `'?'` and the bytes after it (with the `'?'` reinserted when one was
found) reproduces the target exactly. -/
theorem queryIdx_split (v : Bytes) :
    v.take (queryIdx v) ++
      (if queryIdx v < v.length then 63 :: v.drop (queryIdx v + 1) else []) = v := by
  induction v with
  | nil => simp [queryIdx]
  | cons b r ih =>
    by_cases hb : b = 63
    · subst hb
      simp [queryIdx]
    · have hq : queryIdx (b :: r) = queryIdx r + 1 := by simp [queryIdx, hb]
      rw [hq]
      by_cases hlt : queryIdx r < r.length
      · have hlt' : queryIdx r + 1 < (b :: r).length := by simp; omega
        rw [if_pos hlt']
        rw [if_pos hlt] at ih
        simpa using ih
      · have hlt' : ¬queryIdx r + 1 < (b :: r).length := by simp; omega
        rw [if_neg hlt']
        rw [if_neg hlt] at ih
        simpa using ih

/-! ## Small derived helpers used by the claim instances -/

/-- Payload view of a data event, for concrete trace checks. -/
def dataView : Event → Option (Bytes × Bool)
  | .data s f => some (s, f)
  | _ => none

/-- A byte string with no CR holds no head terminator. -/
theorem firstTerm_none_of_not_mem (w : Bytes) (h : 13 ∉ w) :
    firstTerm w = none := by
  have := firstTerm_append_of_not_mem w [] h
  simpa using this

/-- `getHeaders` fails on any fenced buffer whose unfenced part holds no
head terminator. -/
theorem getHeaders_none_of_firstTerm_none (w : Bytes) (h : firstTerm w = none) :
    getHeaders (w ++ [13, 97]) = none := by
  cases hg : getHeaders (w ++ [13, 97]) with
  | none => rfl
  | some pr =>
    obtain ⟨n, hs⟩ := pr
    have := (getHeaders_spec w n hs hg).2.2.1
    rw [h] at this
    exact absurd this (by simp)

/-- The query separator lies strictly inside the target exactly when the
target holds a `'?'`. -/
theorem queryIdx_lt_iff_mem (v : Bytes) : queryIdx v < v.length ↔ 63 ∈ v := by
  induction v with
  | nil => simp [queryIdx]
  | cons b r ih =>
    by_cases hb : b = 63
    · subst hb
      simp [queryIdx]
    · rw [show queryIdx (b :: r) = queryIdx r + 1 from by simp [queryIdx, hb]]
      simp only [List.length_cons, List.mem_cons, Nat.add_lt_add_iff_right, ih]
      constructor
      · exact fun h => Or.inr h
      · rintro (h | h)
        · exact absurd h.symm hb
        · exact h

/-- The URL and query views of a single-slot request, unfolded to the
stripped target. -/
theorem mkRequest_single_fields (k val : Bytes) :
    (mkRequest [⟨k, val⟩]).getUrl =
      (val.take (val.length - 9)).take (queryIdx (val.take (val.length - 9))) ∧
    (mkRequest [⟨k, val⟩]).getQuery =
      (if queryIdx (val.take (val.length - 9)) < (val.take (val.length - 9)).length
        then (val.take (val.length - 9)).drop
          (queryIdx (val.take (val.length - 9)) + 1)
        else []) :=
  ⟨rfl, rfl⟩

/-! ## The claims -/

/-- C1 (counterexample): the claim quantifies over all three callbacks, but
the head loop ignores the data handler's return value.  Here the data
handler returns `1` on a token of `0` at the second event of the call, yet
a further request and a further data callback fire, and the call returns
`0`, not `1`. -/
theorem C1_counterexample :
    ((consumePostPadded (fun (u : Nat) _ => u) (fun _ _ _ => 1) (fun u => u) 0
        ⟨[], 0⟩ (strBytes "GET /a HTTP/1.1\r\n\r\nGET /b HTTP/1.1\r\n\r\n")).1.map
        eventKind =
      [EventKind.request, EventKind.data, EventKind.request, EventKind.data]) ∧
    ((consumePostPadded (fun (u : Nat) _ => u) (fun _ _ _ => 1) (fun u => u) 0
        ⟨[], 0⟩ (strBytes "GET /a HTTP/1.1\r\n\r\nGET /b HTTP/1.1\r\n\r\n")).2.1 = 0) ∧
    (1 : Nat) ≠ 0 := by
  refine ⟨by decide, by decide, by decide⟩

/-- C1 (amended): within a single call to `consumePostPadded`, once the
REQUEST handler returns a user token different from the one it was passed,
no further callback is invoked during that call — the differing request
event is the last event — and the call returns that differing token.  (The
data handler's return differing only cuts short the fresh-parse stages, as
`C1_counterexample` shows, so the amendment restricts the claim to the
request handler.) -/
theorem C1_request_cancel {α : Type} [DecidableEq α]
    (rh : α → HttpRequest → α) (dh : α → Bytes → Bool → α) (eh : α → α)
    (user : α) (st : ParserState) (data : Bytes) (i : Nat) (v : α)
    (h : firstDiffReq rh user (consumePostPadded rh dh eh user st data).1 =
      some (i, v)) :
    i + 1 = (consumePostPadded rh dh eh user st data).1.length ∧
    (consumePostPadded rh dh eh user st data).2.1 = v :=
  consume_cancel rh user dh eh st data i v h

/-- Witness for `C1_request_cancel`: a request handler that bumps the token
cancels on the sole head of the buffer, and the call returns its token. -/
theorem C1_witness :
    (firstDiffReq (fun (u : Nat) (_ : HttpRequest) => u + 1) 0
        (consumePostPadded (fun (u : Nat) (_ : HttpRequest) => u + 1)
          (fun u _ _ => u) (fun u => u) 0 ⟨[], 0⟩
          (strBytes "GET / HTTP/1.1\r\n\r\n")).1 = some (0, 1)) ∧
    (0 + 1 = (consumePostPadded (fun (u : Nat) (_ : HttpRequest) => u + 1)
        (fun u _ _ => u) (fun u => u) 0 ⟨[], 0⟩
        (strBytes "GET / HTTP/1.1\r\n\r\n")).1.length ∧
      (consumePostPadded (fun (u : Nat) (_ : HttpRequest) => u + 1)
        (fun u _ _ => u) (fun u => u) 0 ⟨[], 0⟩
        (strBytes "GET / HTTP/1.1\r\n\r\n")).2.1 = 1) :=
  ⟨by decide, C1_request_cancel _ _ _ _ _ _ 0 1 (by decide)⟩

/-- C2 (counterexample): the claim promises lookup of EVERY name present
among the request's headers, but both the bloom-filter fold and the
`getHeader` scan terminate at the first zero-length key.  The line `": v"`
parses with an empty key, so on this head `Host: x` is stored in the
request's header slots yet `getHeader` on its lower-cased name returns the
empty slice. -/
theorem C2_counterexample :
    (getHeaders (strBytes "GET / HTTP/1.1\r\n: v\r\nHost: x\r\n\r\n" ++ [13, 97]) =
      some (32, [⟨strBytes "get", strBytes "/ HTTP/1.1"⟩, ⟨[], strBytes "v"⟩,
        ⟨strBytes "host", strBytes "x"⟩])) ∧
    ((⟨strBytes "host", strBytes "x"⟩ : Header) ∈
      (mkRequest [⟨strBytes "get", strBytes "/ HTTP/1.1"⟩, ⟨[], strBytes "v"⟩,
        ⟨strBytes "host", strBytes "x"⟩]).headers.tail) ∧
    ((mkRequest [⟨strBytes "get", strBytes "/ HTTP/1.1"⟩, ⟨[], strBytes "v"⟩,
        ⟨strBytes "host", strBytes "x"⟩]).getHeader (strBytes "host") = []) ∧
    strBytes "x" ≠ [] := by
  refine ⟨by decide, by decide, by decide, by decide⟩

/-- C2 (amended): for every parsed request, a name present among the
header slots BEFORE the first empty-key slot is found by `getHeader` — the
returned value forms, with the queried name, one of those slots — and a
name not present among those slots yields the empty slice (the lookup and
bloom-filter loops treat a zero-length key as the terminating sentinel, so
headers stored after one are unreachable, see `C2_counterexample`); all
stored keys are already lower-cased (lower-casing is the identity on
them), so the lookups are exactly the lower-cased-name lookups of the
claim. -/
theorem C2_header_lookup (w : Bytes) (n : Nat) (hs : List Header)
    (hp : getHeaders (w ++ [13, 97]) = some (n, hs)) (name : Bytes) :
    ((∃ hd ∈ hs.tail.takeWhile (fun x => !x.key.isEmpty), hd.key = name) →
      (⟨name, (mkRequest hs).getHeader name⟩ : Header) ∈
        hs.tail.takeWhile (fun x => !x.key.isEmpty)) ∧
    ((∀ hd ∈ hs.tail.takeWhile (fun x => !x.key.isEmpty), hd.key ≠ name) →
      (mkRequest hs).getHeader name = []) ∧
    (∀ hd ∈ hs, hd.key.map (· ||| 32) = hd.key) := by
  have htail : (mkRequest hs).headers.tail = hs.tail := rfl
  have hbf : (mkRequest hs).bf =
      (hs.tail.takeWhile (fun x => !x.key.isEmpty)).foldl
        (fun b hd => bfAdd b hd.key) 0 := rfl
  refine ⟨?_, ?_, ?_⟩
  · rintro ⟨hd0, hm0, hk0⟩
    have hmight : bfMightHave (mkRequest hs).bf name = true := by
      rw [hbf]
      exact bfMightHave_foldl _ name 0 ⟨hd0, hm0, hk0⟩
    unfold HttpRequest.getHeader
    rw [if_pos hmight, htail]
    exact findHeader_mem hs.tail name ⟨hd0, hm0, hk0⟩
  · intro habs
    unfold HttpRequest.getHeader
    by_cases hmight : bfMightHave (mkRequest hs).bf name = true
    · rw [if_pos hmight, htail]
      exact findHeader_not_mem hs.tail name habs
    · rw [if_neg hmight]
  · intro hd hm
    exact map_lor32_fixed hd.key
      ((getHeaders_spec w n hs hp).2.2.2.2.2.2.1 hd hm)

/-- Witness for `C2_header_lookup`: a parsed `Host: x` header — with no
empty-key slot before it — is found under its lower-cased name. -/
theorem C2_witness :
    (getHeaders (strBytes "GET / HTTP/1.1\r\nHost: x\r\n\r\n" ++ [13, 97]) =
      some (27, [⟨strBytes "get", strBytes "/ HTTP/1.1"⟩,
        ⟨strBytes "host", strBytes "x"⟩])) ∧
    ((⟨strBytes "host", (mkRequest [⟨strBytes "get", strBytes "/ HTTP/1.1"⟩,
          ⟨strBytes "host", strBytes "x"⟩]).getHeader (strBytes "host")⟩ : Header) ∈
      ([⟨strBytes "get", strBytes "/ HTTP/1.1"⟩,
        ⟨strBytes "host", strBytes "x"⟩] : List Header).tail.takeWhile
        (fun x => !x.key.isEmpty)) :=
  ⟨by decide,
    (C2_header_lookup (strBytes "GET / HTTP/1.1\r\nHost: x\r\n\r\n") 27
        [⟨strBytes "get", strBytes "/ HTTP/1.1"⟩, ⟨strBytes "host", strBytes "x"⟩]
        (by decide) (strBytes "host")).1
      ⟨⟨strBytes "host", strBytes "x"⟩, by decide, rfl⟩⟩

/-- C3 (counterexample): a request target ending in `'?'` — here `/a?`, as
the decomposition of the input shows — yields an empty `query()`, so the
claim's rule omits the `'?'` and the reassembled target is `/a`, not the
original `/a?`. -/
theorem C3_counterexample :
    (strBytes "GET /a? HTTP/1.1\r\n\r\n" =
      strBytes "GET " ++ strBytes "/a?" ++ strBytes " HTTP/1.1\r\n\r\n") ∧
    (getHeaders (strBytes "GET /a? HTTP/1.1\r\n\r\n" ++ [13, 97]) =
      some (20, [⟨strBytes "get", strBytes "/a? HTTP/1.1"⟩])) ∧
    ((mkRequest [⟨strBytes "get", strBytes "/a? HTTP/1.1"⟩]).getQuery = []) ∧
    ((mkRequest [⟨strBytes "get", strBytes "/a? HTTP/1.1"⟩]).getUrl ++
        (if (mkRequest [⟨strBytes "get", strBytes "/a? HTTP/1.1"⟩]).getQuery = []
          then []
          else 63 :: (mkRequest [⟨strBytes "get",
            strBytes "/a? HTTP/1.1"⟩]).getQuery) =
      strBytes "/a") ∧
    strBytes "/a" ≠ strBytes "/a?" := by
  refine ⟨by decide, by decide, by decide, by decide, by decide⟩

/-- C3 (amended): for every parsed head `method SP target SP HTTP/1.1`,
`url() ++ [63] ++ query()` — with the `'?'` (63) omitted when the TARGET
CONTAINS NO `'?'` (rather than when `query()` is empty, which additionally
fails for targets ending in `'?'`, as `C3_counterexample` shows) — equals
the original request target of the request line. -/
theorem C3_url_query (method target : Bytes)
    (hm : ∀ b ∈ method, b ≠ 58 ∧ 32 < b)
    (h13 : 13 ∉ target)
    (hhd : ∃ b0 t, target = b0 :: t ∧ b0 ≠ 58 ∧ 32 < b0) :
    getHeaders (method ++ 32 ::
        ((target ++ strBytes " HTTP/1.1") ++ [13, 10, 13, 10, 13, 97])) =
      some (method.length + 1 + (target.length + 9) + 4,
        [⟨method.map (· ||| 32), target ++ strBytes " HTTP/1.1"⟩]) ∧
    (mkRequest [⟨method.map (· ||| 32), target ++ strBytes " HTTP/1.1"⟩]).getUrl ++
      (if 63 ∈ target
        then 63 :: (mkRequest [⟨method.map (· ||| 32),
          target ++ strBytes " HTTP/1.1"⟩]).getQuery
        else []) = target := by
  have hlen9 : (strBytes " HTTP/1.1").length = 9 := by decide
  have h13s : (13 : Nat) ∉ strBytes " HTTP/1.1" := by decide
  have h13r : (13 : Nat) ∉ target ++ strBytes " HTTP/1.1" := by
    intro hmem
    rcases List.mem_append.mp hmem with h | h
    · exact h13 h
    · exact h13s h
  have hhd2 : target ++ strBytes " HTTP/1.1" = [] ∨
      ∃ b0 t, target ++ strBytes " HTTP/1.1" = b0 :: t ∧ b0 ≠ 58 ∧ 32 < b0 := by
    obtain ⟨b0, t, ht, hb1, hb2⟩ := hhd
    exact Or.inr ⟨b0, t ++ strBytes " HTTP/1.1", by rw [ht]; rfl, hb1, hb2⟩
  have hlen : (target ++ strBytes " HTTP/1.1").length = target.length + 9 := by
    rw [List.length_append, hlen9]
  constructor
  · have := getHeaders_request_line method (target ++ strBytes " HTTP/1.1")
      hm h13r hhd2
    rw [hlen] at this
    exact this
  · have hvlen : (target ++ strBytes " HTTP/1.1").length - 9 = target.length := by
      rw [hlen]
      omega
    have hv : (target ++ strBytes " HTTP/1.1").take
        ((target ++ strBytes " HTTP/1.1").length - 9) = target := by
      rw [hvlen]
      exact List.take_left _ _
    rw [(mkRequest_single_fields (method.map (· ||| 32))
        (target ++ strBytes " HTTP/1.1")).1,
      (mkRequest_single_fields (method.map (· ||| 32))
        (target ++ strBytes " HTTP/1.1")).2, hv]
    by_cases hmem : (63 : Nat) ∈ target
    · have hq : queryIdx target < target.length :=
        (queryIdx_lt_iff_mem target).mpr hmem
      rw [if_pos hmem, if_pos hq]
      have hsplit := queryIdx_split target
      rw [if_pos hq] at hsplit
      exact hsplit
    · have hq : ¬queryIdx target < target.length :=
        fun h => hmem ((queryIdx_lt_iff_mem target).mp h)
      rw [if_neg hmem]
      have hsplit := queryIdx_split target
      rw [if_neg hq] at hsplit
      simpa using hsplit

/-- Witness for `C3_url_query`: a target holding a `'?'` is split and
reassembled exactly. -/
theorem C3_witness :
    (∀ b ∈ strBytes "GET", b ≠ 58 ∧ 32 < b) ∧
    (13 : Nat) ∉ strBytes "/a?b" ∧
    (getHeaders (strBytes "GET" ++ 32 ::
        ((strBytes "/a?b" ++ strBytes " HTTP/1.1") ++ [13, 10, 13, 10, 13, 97])) =
      some ((strBytes "GET").length + 1 + ((strBytes "/a?b").length + 9) + 4,
        [⟨(strBytes "GET").map (· ||| 32),
          strBytes "/a?b" ++ strBytes " HTTP/1.1"⟩]) ∧
      (mkRequest [⟨(strBytes "GET").map (· ||| 32),
          strBytes "/a?b" ++ strBytes " HTTP/1.1"⟩]).getUrl ++
        (if (63 : Nat) ∈ strBytes "/a?b"
          then 63 :: (mkRequest [⟨(strBytes "GET").map (· ||| 32),
            strBytes "/a?b" ++ strBytes " HTTP/1.1"⟩]).getQuery
          else []) = strBytes "/a?b") :=
  ⟨by decide, by decide,
    C3_url_query (strBytes "GET") (strBytes "/a?b") (by decide) (by decide)
      ⟨47, [97, 63, 98], by decide, by decide, by decide⟩⟩

/-- C4: a head whose (lower-cased) method is `"get"`, dispatched with no
body in progress, emits exactly one data event — empty slice, `fin` set —
leaves `remainingStreamingBytes` at 0 and consumes no window bytes; and in
a concrete two-request pipeline each `GET` head is followed by exactly its
one empty terminator event before the next head is parsed from the
following bytes, ending in a clean state. -/
theorem C4_get_empty_body :
    (∀ (minimal : Bool) (req : HttpRequest) (w : Bytes),
      req.getMethod = strBytes "get" →
      dispatchBody minimal 0 req w = ([Event.data [] true], 0, w, 0)) ∧
    ((consumePostPadded (fun (u : Nat) _ => u) (fun u _ _ => u) (fun u => u) 0
        ⟨[], 0⟩ (strBytes "GET /a HTTP/1.1\r\n\r\nGET /b HTTP/1.1\r\n\r\n")).1.map
        dataView = [none, some ([], true), none, some ([], true)]) ∧
    ((consumePostPadded (fun (u : Nat) _ => u) (fun u _ _ => u) (fun u => u) 0
        ⟨[], 0⟩ (strBytes "GET /a HTTP/1.1\r\n\r\nGET /b HTTP/1.1\r\n\r\n")).1.map
        eventKind =
      [EventKind.request, EventKind.data, EventKind.request, EventKind.data]) ∧
    ((consumePostPadded (fun (u : Nat) _ => u) (fun u _ _ => u) (fun u => u) 0
        ⟨[], 0⟩ (strBytes "GET /a HTTP/1.1\r\n\r\nGET /b HTTP/1.1\r\n\r\n")).2.2 =
      ⟨[], 0⟩) := by
  refine ⟨?_, by decide, by decide, by decide⟩
  intro minimal req w hget
  simp [dispatchBody, hget]

/-- Witness for `C4_get_empty_body`: the dispatch of a concrete parsed
`GET` head. -/
theorem C4_witness :
    ((mkRequest [⟨strBytes "get", strBytes "/ HTTP/1.1"⟩]).getMethod =
      strBytes "get") ∧
    dispatchBody true 0 (mkRequest [⟨strBytes "get", strBytes "/ HTTP/1.1"⟩])
        (strBytes "XY") =
      ([Event.data [] true], 0, strBytes "XY", 0) :=
  ⟨by decide, C4_get_empty_body.1 true _ _ (by decide)⟩

/-- A head at the slot-capacity boundary: a request line followed by 49
one-byte-key header lines, one more slot than `getHeaders` can store. -/
def capacityHead : Bytes :=
  strBytes "GET / HTTP/1.1\r\n" ++
    (List.replicate 49 (strBytes "a: b\r\n")).flatten ++ strBytes "\r\n"

set_option maxRecDepth 10000 in
set_option maxHeartbeats 1000000 in
/-- C5: on success `getHeaders` consumes between 4 bytes and the whole
buffer, ending exactly 4 bytes past the first CRLFCRLF, and stores at most
49 slots; it fails whenever the buffer holds no complete CRLFCRLF
terminator, whenever the first CR of the buffer is not followed by LF, and
on a concrete head with more header lines than the capacity (one line
fewer parses, filling all 49 slots). -/
theorem C5_getHeaders_contract :
    (∀ (w : Bytes) (n : Nat) (hs : List Header),
      getHeaders (w ++ [13, 97]) = some (n, hs) →
      4 ≤ n ∧ n ≤ w.length ∧ firstTerm w = some (n - 4) ∧ hs.length ≤ 49) ∧
    (∀ w : Bytes, firstTerm w = none → getHeaders (w ++ [13, 97]) = none) ∧
    (∀ (w : Bytes) (i : Nat), w.getD i 0 = 13 → w.getD (i + 1) 0 ≠ 10 →
      (∀ j < i, w.getD j 0 ≠ 13) → getHeaders (w ++ [13, 97]) = none) ∧
    (getHeaders (capacityHead ++ [13, 97]) = none ∧
      (getHeaders ((strBytes "GET / HTTP/1.1\r\n" ++
          (List.replicate 48 (strBytes "a: b\r\n")).flatten ++ strBytes "\r\n") ++
          [13, 97])).map (fun p => (p.1, p.2.length)) = some (306, 49)) := by
  refine ⟨?_, ?_, ?_, by decide, by decide⟩
  · intro w n hs hp
    obtain ⟨h4, hn, hft, -, -, h49, -, -⟩ := getHeaders_spec w n hs hp
    exact ⟨h4, hn, hft, h49⟩
  · intro w hft
    exact getHeaders_none_of_firstTerm_none w hft
  · intro w i h13 h10 hmin
    cases hg : getHeaders (w ++ [13, 97]) with
    | none => rfl
    | some pr =>
      obtain ⟨n, hs⟩ := pr
      obtain ⟨h4, hn, -, hcr, -, -, -, hsuf⟩ := getHeaders_spec w n hs hg
      exfalso
      have hlenp : (w.take n).length = n := by
        rw [List.length_take]
        omega
      have hp13 := suffix_getD_13 (w.take n) hsuf
      rw [hlenp] at hp13
      rw [getD_take w n (n - 4) (by omega)] at hp13
      have hile : i ≤ n - 4 := by
        by_contra hlt
        exact hmin (n - 4) (by omega) hp13
      have hpi : (w.take n).getD i 0 = 13 := by
        rw [getD_take w n i (by omega)]
        exact h13
      have hpi1 := crFollowed_getD (w.take n) hcr i hpi
      rw [getD_take w n (i + 1) (by omega)] at hpi1
      exact h10 hpi1

/-- Witness for `C5_getHeaders_contract`: a complete head, an incomplete
head, and a bare-CR malformed head. -/
theorem C5_witness :
    (getHeaders (strBytes "GET / HTTP/1.1\r\n\r\nrest" ++ [13, 97]) =
      some (18, [⟨strBytes "get", strBytes "/ HTTP/1.1"⟩])) ∧
    (4 ≤ 18 ∧ 18 ≤ (strBytes "GET / HTTP/1.1\r\n\r\nrest").length ∧
      firstTerm (strBytes "GET / HTTP/1.1\r\n\r\nrest") = some (18 - 4) ∧
      ([⟨strBytes "get", strBytes "/ HTTP/1.1"⟩] : List Header).length ≤ 49) ∧
    (firstTerm (strBytes "GET /") = none ∧
      getHeaders (strBytes "GET /" ++ [13, 97]) = none) ∧
    ((strBytes "ab\rc").getD 2 0 = 13 ∧
      getHeaders (strBytes "ab\rc" ++ [13, 97]) = none) :=
  ⟨by decide,
    C5_getHeaders_contract.1 (strBytes "GET / HTTP/1.1\r\n\r\nrest") 18
      [⟨strBytes "get", strBytes "/ HTTP/1.1"⟩] (by decide),
    ⟨by decide, C5_getHeaders_contract.2.1 (strBytes "GET /") (by decide)⟩,
    ⟨by decide, C5_getHeaders_contract.2.2.1 (strBytes "ab\rc") 2 (by decide)
      (by decide) (by decide)⟩⟩

/-- C6: a call to `consumePostPadded` entered with at most one of fallback
bytes and an in-progress body, and returning the unchanged user token,
leaves a state in which again the fallback buffer is empty or
`remainingStreamingBytes` is 0 — never both carried-over head bytes and an
in-progress body. -/
theorem C6_state_exclusive {α : Type} [DecidableEq α]
    (rh : α → HttpRequest → α) (dh : α → Bytes → Bool → α) (eh : α → α)
    (user : α) (st : ParserState) (data : Bytes)
    (hInv : st.fallback = [] ∨ st.remaining = 0)
    (hret : (consumePostPadded rh dh eh user st data).2.1 = user) :
    (consumePostPadded rh dh eh user st data).2.2.fallback = [] ∨
    (consumePostPadded rh dh eh user st data).2.2.remaining = 0 :=
  (consume_inv rh user dh eh st data hInv).1 hret

/-- Witness for `C6_state_exclusive`: a `POST` whose body is still in
progress after the call (2 of 5 bytes seen) leaves an empty fallback. -/
theorem C6_witness :
    ((consumePostPadded (fun (u : Nat) _ => u) (fun u _ _ => u) (fun u => u) 0
        ⟨[], 0⟩ (strBytes "POST / HTTP/1.1\r\nContent-Length: 5\r\n\r\nAB")).2 =
      (0, ⟨[], 3⟩)) ∧
    ((consumePostPadded (fun (u : Nat) _ => u) (fun u _ _ => u) (fun u => u) 0
        ⟨[], 0⟩ (strBytes "POST / HTTP/1.1\r\nContent-Length: 5\r\n\r\nAB")).2.2.fallback =
        [] ∨
      (consumePostPadded (fun (u : Nat) _ => u) (fun u _ _ => u) (fun u => u) 0
        ⟨[], 0⟩ (strBytes "POST / HTTP/1.1\r\nContent-Length: 5\r\n\r\nAB")).2.2.remaining =
        0) :=
  ⟨by decide,
    C6_state_exclusive (fun u _ => u) (fun u _ _ => u) (fun u => u) 0 ⟨[], 0⟩
      (strBytes "POST / HTTP/1.1\r\nContent-Length: 5\r\n\r\nAB") (Or.inl rfl)
      (by decide)⟩

/-- C7: across any sequence of calls, a state satisfying the parser's
invariants with a fallback within `MAX_FALLBACK_SIZE` keeps its fallback
within `MAX_FALLBACK_SIZE`; when fresh parsing from a clean state leaves
at least `MAX_FALLBACK_SIZE` residual bytes, the error handler fires, its
result is returned and the error is the last event; and likewise when the
topped-up fallback buffer is full but no head could be consumed from it. -/
theorem C7_fallback_bound (α : Type) [DecidableEq α] (rh : α → HttpRequest → α)
    (dh : α → Bytes → Bool → α) (eh : α → α) (user : α) :
    (∀ (st : ParserState) (data : Bytes),
      st.fallback = [] ∨ st.remaining = 0 →
      st.fallback.length ≤ MAX_FALLBACK_SIZE →
      (consumePostPadded rh dh eh user st data).2.2.fallback.length ≤
        MAX_FALLBACK_SIZE) ∧
    (∀ data : Bytes,
      (fenceAndConsumePostPadded false rh user 0 data).2.2.1 = user →
      MAX_FALLBACK_SIZE ≤
        (data.drop (fenceAndConsumePostPadded false rh user 0 data).1).length →
      (consumePostPadded rh dh eh user ⟨[], 0⟩ data).2.1 = eh user ∧
      (consumePostPadded rh dh eh user ⟨[], 0⟩ data).1.getLast? =
        some Event.error) ∧
    (∀ (st : ParserState) (data : Bytes),
      st.remaining = 0 → st.fallback.length ≠ 0 →
      (fenceAndConsumePostPadded true rh user 0
        (st.fallback ++ data.take
          (min (MAX_FALLBACK_SIZE - st.fallback.length) data.length))).1 = 0 →
      (st.fallback ++ data.take
        (min (MAX_FALLBACK_SIZE - st.fallback.length) data.length)).length =
        MAX_FALLBACK_SIZE →
      (consumePostPadded rh dh eh user st data).2.1 = eh user ∧
      (consumePostPadded rh dh eh user st data).1.getLast? = some Event.error) :=
  ⟨fun st data hInv hb => (consume_inv rh user dh eh st data hInv).2 hb,
    fun data hu hbig => consume_overflow rh user dh eh data hu hbig,
    fun st data h1 h5 hc0 hfull =>
      consume_fallback_full rh user dh eh st data h1 h5 hc0 hfull⟩

/-- Witness for `C7_fallback_bound`: a short stashed head stays bounded; a
4096-byte CR-free burst from a clean state overflows; a full 4096-byte
fallback with no parsable head errors out. -/
theorem C7_witness :
    ((consumePostPadded (fun (u : Nat) _ => u) (fun u _ _ => u) (fun u => u) 0
        ⟨[], 0⟩ (strBytes "GET /")).2.2.fallback.length ≤ MAX_FALLBACK_SIZE) ∧
    ((consumePostPadded (fun (u : Nat) _ => u) (fun u _ _ => u) (fun u => u) 0
        ⟨[], 0⟩ (List.replicate 4096 97)).2.1 = 0 ∧
      (consumePostPadded (fun (u : Nat) _ => u) (fun u _ _ => u) (fun u => u) 0
        ⟨[], 0⟩ (List.replicate 4096 97)).1.getLast? = some Event.error) ∧
    ((consumePostPadded (fun (u : Nat) _ => u) (fun u _ _ => u) (fun u => u) 0
        ⟨[97], 0⟩ (List.replicate 4096 97)).2.1 = 0 ∧
      (consumePostPadded (fun (u : Nat) _ => u) (fun u _ _ => u) (fun u => u) 0
        ⟨[97], 0⟩ (List.replicate 4096 97)).1.getLast? = some Event.error) := by
  have hW : (List.replicate 4096 97 : Bytes).length = 4096 :=
    List.length_replicate _ _
  have h13m : (13 : Nat) ∉ (List.replicate 4096 97 : Bytes) := by
    intro h
    have := List.eq_of_mem_replicate h
    omega
  have hgh : getHeaders ((List.replicate 4096 97 : Bytes) ++ [13, 97]) = none :=
    getHeaders_none_of_firstTerm_none _ (firstTerm_none_of_not_mem _ h13m)
  have hfence : fenceAndConsumePostPadded false
      (fun (u : Nat) (_ : HttpRequest) => u) 0 0 (List.replicate 4096 97) =
      (0, [], 0, 0) := by
    unfold fenceAndConsumePostPadded
    rw [hW]
    exact fenceLoop_ghNone false _ 0 4096 0 _ (by rw [hW]; omega) hgh
  have hfb2 : ([97] : Bytes) ++ (List.replicate 4096 97 : Bytes).take
      (min (MAX_FALLBACK_SIZE - ([97] : Bytes).length)
        (List.replicate 4096 97 : Bytes).length) = List.replicate 4096 97 := by
    have hmin : min (MAX_FALLBACK_SIZE - ([97] : Bytes).length)
        (List.replicate 4096 97 : Bytes).length = 4095 := by
      rw [List.length_replicate]
      decide
    rw [hmin, List.take_replicate]
    rw [show min 4095 4096 = 4095 from by omega]
    rw [show (4096 : Nat) = 4095 + 1 from by omega, List.replicate_succ]
    rfl
  have hc0 : (fenceAndConsumePostPadded true (fun (u : Nat) (_ : HttpRequest) => u)
      0 0 (([97] : Bytes) ++ (List.replicate 4096 97 : Bytes).take
        (min (MAX_FALLBACK_SIZE - ([97] : Bytes).length)
          (List.replicate 4096 97 : Bytes).length))).1 = 0 := by
    rw [hfb2]
    unfold fenceAndConsumePostPadded
    rw [hW]
    rw [fenceLoop_ghNone true _ 0 4096 0 _ (by rw [hW]; omega) hgh]
  have hfull : (([97] : Bytes) ++ (List.replicate 4096 97 : Bytes).take
      (min (MAX_FALLBACK_SIZE - ([97] : Bytes).length)
        (List.replicate 4096 97 : Bytes).length)).length = MAX_FALLBACK_SIZE := by
    rw [hfb2, hW]
    rfl
  refine ⟨(C7_fallback_bound Nat (fun u _ => u) (fun u _ _ => u) (fun u => u)
      0).1 ⟨[], 0⟩ (strBytes "GET /") (Or.inl rfl) (by decide), ?_, ?_⟩
  · exact (C7_fallback_bound Nat (fun u _ => u) (fun u _ _ => u) (fun u => u)
      0).2.1 (List.replicate 4096 97) (by rw [hfence])
      (by
        rw [hfence]
        show MAX_FALLBACK_SIZE ≤ ((List.replicate 4096 97 : Bytes).drop 0).length
        rw [List.drop_zero, List.length_replicate]
        exact le_rfl)
  · exact (C7_fallback_bound Nat (fun u _ => u) (fun u _ _ => u) (fun u => u)
      0).2.2 ⟨[97], 0⟩ (List.replicate 4096 97) rfl (by decide) hc0 hfull

/-- C8 (counterexample): the claim ties the ancient flag to the literal
suffix `"HTTP/1.0"`, but the source only inspects the last byte of the
request line; a request line ending in `"HTTP/2.0"` — visible as the tail
of the stored target — also sets the flag. -/
theorem C8_counterexample :
    (getHeaders (strBytes "GET /x HTTP/2.0\r\n\r\n" ++ [13, 97]) =
      some (19, [⟨strBytes "get", strBytes "/x HTTP/2.0"⟩])) ∧
    ((strBytes "/x HTTP/2.0").drop 3 = strBytes "HTTP/2.0") ∧
    strBytes "HTTP/2.0" ≠ strBytes "HTTP/1.0" ∧
    ((mkRequest [⟨strBytes "get", strBytes "/x HTTP/2.0"⟩]).ancientHttp = true) := by
  refine ⟨by decide, by decide, by decide, by decide⟩

/-- C8 (amended): for every parsed head `method SP rest CRLF CRLF`, the
request view's ancient flag is true if and only if the request line is
nonempty after the method and ends in the byte `'0'` (48) — the last byte
of the version suffix — rather than iff it ends with the full string
`"HTTP/1.0"` (see `C8_counterexample`). -/
theorem C8_ancient (method rest : Bytes)
    (hm : ∀ b ∈ method, b ≠ 58 ∧ 32 < b)
    (h13 : 13 ∉ rest)
    (hhd : rest = [] ∨ ∃ b0 t, rest = b0 :: t ∧ b0 ≠ 58 ∧ 32 < b0) :
    getHeaders (method ++ 32 :: (rest ++ [13, 10, 13, 10, 13, 97])) =
      some (method.length + 1 + rest.length + 4,
        [⟨method.map (· ||| 32), rest⟩]) ∧
    ((mkRequest [⟨method.map (· ||| 32), rest⟩]).ancientHttp = true ↔
      rest ≠ [] ∧ rest.getLastD 0 = 48) := by
  refine ⟨getHeaders_request_line method rest hm h13 hhd, ?_⟩
  show (!rest.isEmpty && rest.getLastD 0 == 48) = true ↔
    rest ≠ [] ∧ rest.getLastD 0 = 48
  simp [List.isEmpty_iff]

/-- Witness for `C8_ancient`: a `HTTP/1.0` request line sets the flag. -/
theorem C8_witness :
    (∀ b ∈ strBytes "GET", b ≠ 58 ∧ 32 < b) ∧
    (13 : Nat) ∉ strBytes "/ HTTP/1.0" ∧
    (getHeaders (strBytes "GET" ++ 32 ::
        (strBytes "/ HTTP/1.0" ++ [13, 10, 13, 10, 13, 97])) =
      some ((strBytes "GET").length + 1 + (strBytes "/ HTTP/1.0").length + 4,
        [⟨(strBytes "GET").map (· ||| 32), strBytes "/ HTTP/1.0"⟩]) ∧
      ((mkRequest [⟨(strBytes "GET").map (· ||| 32),
          strBytes "/ HTTP/1.0"⟩]).ancientHttp = true ↔
        strBytes "/ HTTP/1.0" ≠ [] ∧ (strBytes "/ HTTP/1.0").getLastD 0 = 48)) :=
  ⟨by decide, by decide,
    C8_ancient (strBytes "GET") (strBytes "/ HTTP/1.0") (by decide) (by decide)
      (Or.inr ⟨47, strBytes " HTTP/1.0", by decide, by decide, by decide⟩)⟩

/-- C9 (counterexample): with externally assigned parameters read as the
claim's (count, array) pair with count 1, index 1 is out of range, yet
`getParameter` returns `array[1]`, not the empty slice: the stored `first`
component behaves as the greatest valid index, not as a count. -/
theorem C9_counterexample :
    HttpRequest.getParameter
        ⟨[], false, 0, 0, ((1 : Int), fun _ => strBytes "x"), false⟩ 1 =
      strBytes "x" ∧
    ¬(1 : Nat) < 1 ∧ strBytes "x" ≠ [] := by
  refine ⟨by decide, by decide, by decide⟩

/-- C9 (amended): for every request view whose parameters have been
externally assigned, `getParameter index` returns the empty slice when the
stored `first` component is BELOW `index` (i.e. `first` acts as the
greatest valid index), and returns `array[index]` whenever
`index ≤ first` — including at `index = first`, where the claim's
count-reading demands emptiness (see `C9_counterexample`). -/
theorem C9_parameter (req : HttpRequest) (index : Nat) :
    (req.currentParameters.1 < (index : Int) → req.getParameter index = []) ∧
    ((index : Int) ≤ req.currentParameters.1 →
      req.getParameter index = req.currentParameters.2 index) := by
  unfold HttpRequest.getParameter
  exact ⟨fun h => if_pos h, fun h => if_neg (by omega)⟩

/-- Witness for `C9_parameter`: both branches at a concrete view. -/
theorem C9_witness :
    ((HttpRequest.getParameter
        ⟨[], false, 0, 0, ((1 : Int), fun _ => strBytes "x"), false⟩ 2 = []) ∧
      (HttpRequest.getParameter
        ⟨[], false, 0, 0, ((1 : Int), fun _ => strBytes "x"), false⟩ 0 =
        strBytes "x")) :=
  ⟨(C9_parameter ⟨[], false, 0, 0, ((1 : Int), fun _ => strBytes "x"), false⟩
      2).1 (by decide),
    (C9_parameter ⟨[], false, 0, 0, ((1 : Int), fun _ => strBytes "x"), false⟩
      0).2 (by decide)⟩

/-- C10: for a non-`GET` head carrying a Content-Length header, the body
length entering length mode is `toUnsignedInteger` of the header value,
which is exactly the base-10 accumulation of `byte - 48` modulo `2^32`
over every byte of the value; concrete instances show a non-digit byte is
folded in rather than rejected (`"12x3"` ↦ 1923), a value above the
30-bit counter range is kept unchecked (`2^30 ≤ 1073741825`), and the
accumulation wraps at `2^32` (`"4294967296"` ↦ 0). -/
theorem C10_content_length :
    (∀ (rem : Nat) (req : HttpRequest) (w : Bytes),
      req.getMethod ≠ strBytes "get" →
      req.getHeader (strBytes "content-length") ≠ [] →
      (dispatchBody true rem req w).2.1 =
        toUnsignedInteger (req.getHeader (strBytes "content-length")) ∧
      toUnsignedInteger (req.getHeader (strBytes "content-length")) =
        (req.getHeader (strBytes "content-length")).foldl
          (fun v c => (v * 10 + (c + 2 ^ 32 - 48) % 2 ^ 32) % 2 ^ 32) 0) ∧
    toUnsignedInteger (strBytes "12x3") = 1923 ∧
    (toUnsignedInteger (strBytes "1073741825") = 1073741825 ∧
      2 ^ 30 ≤ 1073741825) ∧
    toUnsignedInteger (strBytes "4294967296") = 0 := by
  refine ⟨?_, by decide, ⟨by decide, by norm_num⟩, by decide⟩
  intro rem req w hget hcl
  refine ⟨?_, rfl⟩
  simp [dispatchBody, hget, hcl]

/-- Witness for `C10_content_length`: a parsed `POST` with
`Content-Length: 5`. -/
theorem C10_witness :
    ((mkRequest [⟨strBytes "post", strBytes "/ HTTP/1.1"⟩,
        ⟨strBytes "content-length", strBytes "5"⟩]).getMethod ≠
      strBytes "get") ∧
    ((mkRequest [⟨strBytes "post", strBytes "/ HTTP/1.1"⟩,
        ⟨strBytes "content-length", strBytes "5"⟩]).getHeader
        (strBytes "content-length") ≠ []) ∧
    ((dispatchBody true 0 (mkRequest [⟨strBytes "post", strBytes "/ HTTP/1.1"⟩,
          ⟨strBytes "content-length", strBytes "5"⟩]) (strBytes "AB")).2.1 =
        toUnsignedInteger ((mkRequest [⟨strBytes "post", strBytes "/ HTTP/1.1"⟩,
          ⟨strBytes "content-length", strBytes "5"⟩]).getHeader
          (strBytes "content-length")) ∧
      toUnsignedInteger ((mkRequest [⟨strBytes "post", strBytes "/ HTTP/1.1"⟩,
          ⟨strBytes "content-length", strBytes "5"⟩]).getHeader
          (strBytes "content-length")) =
        ((mkRequest [⟨strBytes "post", strBytes "/ HTTP/1.1"⟩,
          ⟨strBytes "content-length", strBytes "5"⟩]).getHeader
          (strBytes "content-length")).foldl
          (fun v c => (v * 10 + (c + 2 ^ 32 - 48) % 2 ^ 32) % 2 ^ 32) 0) :=
  ⟨by decide, by decide,
    C10_content_length.1 0 (mkRequest [⟨strBytes "post", strBytes "/ HTTP/1.1"⟩,
      ⟨strBytes "content-length", strBytes "5"⟩]) (strBytes "AB") (by decide)
      (by decide)⟩

end UWS
